import Mathlib

/-!
Verification of the hybrid retrieval-fusion engine, context assembler,
chunk-identity scheme, query router and bounded tool-agent loop of the
WindowsContextualSearch repository.

The Python sources are shallowly embedded: pure functions become Lean
functions, mutable loops become folds or structural recursions carrying the
loop state, Python dicts become association lists that preserve insertion
order (as Python dicts do), float scores become exact rationals, datetimes
become integers ordered like timestamps, and every external collaborator
(the two search engines, the SQLite full-text store, the filesystem mtime
call, the generative model) is an explicit oracle parameter.
-/

-- ======================================================================
-- Small string and list helpers shared by several embedded modules
-- ======================================================================

/-- Model of the Python string slice s[:n]: the first n characters. -/
def pyTake (s : String) (n : Nat) : String :=
  String.mk (s.toList.take n)

/-- Model of the Python substring test (needle in hay), over char lists. -/
def containsSub (hay needle : List Char) : Bool :=
  (List.range (hay.length + 1)).any (fun i => needle.isPrefixOf (hay.drop i))

/-- Model of Python str.lower (ASCII case folding, as used on the inputs here). -/
def pyLower (s : String) : String :=
  String.mk (s.toList.map Char.toLower)

/-- Model of Python str.replace on char lists: replaces every non-overlapping
occurrence of pat (taken nonempty, as all call sites here guarantee) left to
right.  Fuel is the length of the scanned list. -/
def replaceFuel (rep pat : List Char) : Nat → List Char → List Char
  | 0, s => s
  | fuel + 1, s =>
    match s with
    | [] => []
    | c :: rest =>
      if pat ≠ [] ∧ pat.isPrefixOf (c :: rest) then
        rep ++ replaceFuel rep pat fuel ((c :: rest).drop pat.length)
      else
        c :: replaceFuel rep pat fuel rest

/-- Model of Python str.replace(pat, rep) for a nonempty pattern. -/
def pyReplace (s pat rep : String) : String :=
  String.mk (replaceFuel rep.toList pat.toList s.toList.length s.toList)

/-- Stable insertion of x into a list: x is placed before the first element y
with leB y x, so earlier-inserted elements of equal key stay in front.  This
is the insertion step of a stable descending sort, modelling the stability
guarantee of the Python sorted builtin with reverse=True. -/
def insertStable (leB : α → α → Bool) (x : α) : List α → List α
  | [] => [x]
  | y :: ys => if leB y x then x :: y :: ys else y :: insertStable leB x ys

/-- Stable descending sort by the comparator leB (y before x when not leB y x),
modelling Python sorted(..., reverse=True), which is guaranteed stable. -/
def sortRevStable (leB : α → α → Bool) : List α → List α
  | [] => []
  | x :: xs => insertStable leB x (sortRevStable leB xs)

/-- One-based position of the first occurrence of k in l, or none. -/
def posOf1 (k : String) : List String → Option Nat
  | [] => none
  | s :: rest => if s = k then some 1 else (posOf1 k rest).map (fun i => i + 1)

-- ======================================================================
-- answer.py: configuration constants
-- ======================================================================

/-- RRF flatness constant (answer.py RRF_K = 60). -/
def RRF_K : ℚ := 60

/-- Per-chunk character cap in the context block (answer.py MAX_CHUNK_CHARS). -/
def MAX_CHUNK_CHARS : Nat := 1200

-- ======================================================================
-- answer.py: data model of the fused retrieval pipeline
-- ======================================================================

/-- Unified fused hit from either engine (answer.py dataclass Hit).  The float
rrf_score is modelled as an exact rational. -/
structure Hit where
  chunk_id : String
  source : String
  page : Int
  text : String
  chroma_rank : Option Nat
  bm25_rank : Option Nat
  rrf_score : ℚ
deriving DecidableEq

/-- One semantic-engine result: the langchain Document metadata and payload as
read by retrieve_hybrid (metadata id, source and page plus page_content, with
the defaults already applied). -/
structure ChromaDoc where
  id : String
  source : String
  page : Int
  content : String
deriving DecidableEq

/-- One keyword-engine result row as returned by bm25_db.search. -/
structure BmRow where
  chunk_id : String
  source : String
  page : Int
  snippet : String
deriving DecidableEq

/-- The meta dict passed to rrf_add: source, page, text and the 1-based rank. -/
structure Meta where
  source : String
  page : Int
  text : String
  rank : Nat
deriving DecidableEq

/-- The engine tag of a contribution. -/
inductive Engine
  | chroma
  | bm25
deriving DecidableEq

/-- The score_map dict of retrieve_hybrid: an association list keyed by
chunk_id, in Python dict insertion order. -/
abbrev ScoreMap := List (String × Hit)

/-- Membership test for a key in a string-keyed association list. -/
def mapHasKey (m : List (String × α)) (k : String) : Bool :=
  m.any (fun e => e.1 = k)

/-- Update the value stored at key k in place, preserving entry order. -/
def mapUpdate (m : List (String × α)) (k : String) (f : α → α) :
    List (String × α) :=
  m.map (fun e => if e.1 = k then (e.1, f e.2) else e)

/-- The fresh Hit created by rrf_add when a chunk_id is seen for the first
time. -/
def initHit (key : String) (meta : Meta) : Hit :=
  { chunk_id := key, source := meta.source, page := meta.page,
    text := meta.text, chroma_rank := none, bm25_rank := none, rrf_score := 0 }

/-- answer.py rrf_add: add 1/(RRF_K + rank) to the cumulative score of key,
creating the Hit on first sight, and record the per-engine rank. -/
def rrf_add (score_map : ScoreMap) (key : String) (rank_1based : Nat)
    (engine : Engine) (meta : Meta) : ScoreMap :=
  let add : ℚ := 1 / (RRF_K + rank_1based)
  let m1 := if mapHasKey score_map key then score_map
            else score_map ++ [(key, initHit key meta)]
  mapUpdate m1 key (fun h =>
    let h1 := { h with rrf_score := h.rrf_score + add }
    match engine with
    | Engine.chroma => { h1 with chroma_rank := some rank_1based }
    | Engine.bm25 => { h1 with bm25_rank := some rank_1based })

-- ======================================================================
-- answer.py: temporal filter and retrieve_hybrid
-- ======================================================================

/-- The external world retrieve_hybrid runs against: the filesystem mtimes,
the full-text store, and the two per-query engine result lists. -/
structure RetEnv where
  mtime : String → Option Int
  ftsText : String → Option String
  chromaResult : List ChromaDoc
  bm25Result : List BmRow

/-- answer.py file_mtime: the last-modified time of a path, none on failure.
The filesystem stat call is the oracle argument. -/
def file_mtime (mtime : String → Option Int) (source_path : String) :
    Option Int :=
  mtime source_path

/-- answer.py passes_before_filter: with no cutoff everything passes; with a
cutoff, pass only files whose mtime exists and is strictly earlier. -/
def passes_before_filter (mtime : String → Option Int) (source_path : String)
    (before : Option Int) : Bool :=
  match before with
  | none => true
  | some b =>
    match file_mtime mtime source_path with
    | none => false
    | some t => decide (t < b)

/-- The chroma_text_by_id dict: chunk_id to full page_content, built over all
chroma pairs.  Later entries overwrite earlier ones, as in a Python dict, so
lookups read the last binding. -/
def chromaTextById (env : RetEnv) (k : String) : Option String :=
  (env.chromaResult.reverse.map (fun d => (d.id, d.content))).lookup k

/-- The chroma_meta_list of retrieve_hybrid: each chroma pair in order with
its raw 1-based rank, skipping empty ids and entries failing the date
filter. -/
def chroma_meta_list (env : RetEnv) (before : Option Int) :
    List (String × Meta) :=
  (List.enumFrom 1 env.chromaResult).filterMap (fun p =>
    if p.2.id = "" || !(passes_before_filter env.mtime p.2.source before) then none
    else some (p.2.id, { source := p.2.source, page := p.2.page,
                         text := p.2.content, rank := p.1 }))

/-- One iteration of the bm25 result loop of retrieve_hybrid: skip empty ids
and filtered sources, resolve full text from the chroma payload when present,
otherwise append the empty placeholder and collect the id for the batch FTS
fetch. -/
def bm25Step (env : RetEnv) (before : Option Int)
    (acc : List (String × Meta) × List String) (p : Nat × BmRow) :
    List (String × Meta) × List String :=
  if p.2.chunk_id = "" || !(passes_before_filter env.mtime p.2.source before) then
    acc
  else
    match chromaTextById env p.2.chunk_id with
    | some full =>
      (acc.1 ++ [(p.2.chunk_id, { source := p.2.source, page := p.2.page,
                                  text := full, rank := p.1 })], acc.2)
    | none =>
      (acc.1 ++ [(p.2.chunk_id, { source := p.2.source, page := p.2.page,
                                  text := "", rank := p.1 })],
       acc.2 ++ [p.2.chunk_id])

/-- First pass over the bm25 rows: build the bm25_meta_list with full text
taken from chroma when available and an empty-string placeholder otherwise,
and collect the bm25-only chunk ids needing the batch FTS text fetch. -/
def bm25_pass1 (env : RetEnv) (before : Option Int) :
    List (String × Meta) × List String :=
  (List.enumFrom 1 env.bm25Result).foldl (bm25Step env before)
    (([], []) : List (String × Meta) × List String)

/-- Fill a still-empty meta text from the batch FTS fetch: the text map holds
rows only for the collected bm25-only ids, with empty-string default. -/
def fillOne (env : RetEnv) (onlyIds : List String) (pm : String × Meta) :
    String × Meta :=
  if pm.2.text = "" then
    (pm.1, { pm.2 with
             text := if onlyIds.contains pm.1
                     then (env.ftsText pm.1).getD "" else "" })
  else pm

/-- Fold one engine meta list into the fused score map, skipping empty keys,
exactly as the two RRF fusion loops of retrieve_hybrid do. -/
def rrfFold (engine : Engine) (l : List (String × Meta)) (m : ScoreMap) :
    ScoreMap :=
  l.foldl (fun m p => if p.1 = "" then m else rrf_add m p.1 p.2.rank engine p.2) m

/-- Comparator for the final sort: descending by rrf_score. -/
def hitLe (a b : Hit) : Bool :=
  decide (a.rrf_score ≤ b.rrf_score)

/-- answer.py retrieve_hybrid: run both engines, resolve full text, fuse with
RRF and return the hits sorted by descending fused score (Python sorted is
stable, so ties keep dict insertion order). -/
def retrieve_hybrid (env : RetEnv) (before : Option Int) : List Hit :=
  let cML := chroma_meta_list env before
  let pass1 := bm25_pass1 env before
  let bML := if pass1.2.isEmpty then pass1.1
             else pass1.1.map (fillOne env pass1.2)
  let fused1 := rrfFold Engine.chroma cML []
  let fused2 := rrfFold Engine.bm25 bML fused1
  sortRevStable hitLe (fused2.map Prod.snd)

-- ======================================================================
-- answer.py: context block assembly
-- ======================================================================

/-- Rendering of one chosen hit as source line i of the context block, with
the chunk text capped at MAX_CHUNK_CHARS characters. -/
def renderHit (i : Nat) (h : Hit) : String :=
  "[" ++ Nat.repr i ++ "] source: " ++ h.source ++ " | page: " ++
    Int.repr h.page ++ " | chunk_id: " ++ h.chunk_id ++ "\n" ++
    pyTake h.text MAX_CHUNK_CHARS ++ "\n"

/-- The numbered lines of the context block for the first limit hits. -/
def contextLines (hits : List Hit) (limit : Nat) : List String :=
  (List.enumFrom 1 (hits.take limit)).map (fun p => renderHit p.1 p.2)

/-- answer.py build_context_block: the numbered context text for the first
limit hits, together with exactly those hits in the same order. -/
def build_context_block (hits : List Hit) (limit : Nat) :
    String × List Hit :=
  (String.intercalate "\n" (contextLines hits limit), hits.take limit)

-- ======================================================================
-- index_chroma.py / index_bm25.py: chunk identity
-- ======================================================================

/-- A chunk as seen by assign_chunk_ids: its source path and page metadata
(with defaults applied by the loader) and its text payload, which the id
scheme ignores. -/
structure Chunk where
  source : String
  page : Nat
  text : String
deriving DecidableEq

/-- The page key grouping chunks of one file page: source ++ ":" ++ page. -/
def pageKey (c : Chunk) : String :=
  c.source ++ ":" ++ Nat.repr c.page

/-- The loop body of assign_chunk_ids, carrying the last page key seen and
the current index within that page. -/
def assignGo (last : Option String) (idx : Nat) : List Chunk → List String
  | [] => []
  | c :: rest =>
    let key := pageKey c
    let idx1 := if some key = last then idx + 1 else 0
    (key ++ ":" ++ Nat.repr idx1) :: assignGo (some key) idx1 rest

/-- index_chroma.py assign_chunk_ids: the id source:page:i where i counts
consecutive chunks sharing the page key and resets to 0 on change. -/
def assign_chunk_ids (chunks : List Chunk) : List String :=
  assignGo none 0 chunks

/-- index_bm25.py assign_chunk_ids: the BM25 indexer carries a character for
character identical copy of the same function. -/
def assign_chunk_ids_bm25 (chunks : List Chunk) : List String :=
  assignGo none 0 chunks

-- ======================================================================
-- answer.py: prompt construction and file-lookup intent heuristic
-- ======================================================================

/-- answer.py build_prompt: the instruction-following prompt template, with
the question and the rendered context block spliced in (the embedded template
keeps the indentation of the Python triple-quoted literal). -/
def build_prompt (question : String) (context_block : String) : String :=
  "You are a careful research assistant. Answer ONLY using the sources below.\n        If the sources do not contain the answer, say you don\x27t have enough information.\n        Cite sources inline using square brackets like [1] or [1][3] at the end of sentences.\n\n        Question:\n        "
    ++ question ++ "\n\n        Sources:\n        " ++ context_block ++ "\n        "

/-- The fixed trigger phrases of is_file_lookup. -/
def fileLookupTriggers : List String :=
  ["which file", "what file", "which document", "what document",
   "which doc", "where is the file", "where can i find the file",
   "which note", "which txt", "which pdf"]

/-- answer.py is_file_lookup: true when the lowercased question contains one
of the fixed trigger phrases. -/
def is_file_lookup (question : String) : Bool :=
  let q := pyLower question
  fileLookupTriggers.any (fun t => containsSub q.toList t.toList)

-- ======================================================================
-- router_agent.py: token extraction helpers
-- ======================================================================

/-- Character class of TOKEN_RE and of the tail of BRANDY: ASCII letters,
digits, underscore and hyphen. -/
def isTokChar (c : Char) : Bool :=
  c.isAlpha || c.isDigit || c = '_' || c = '-'

/-- Maximal runs of token-class characters of a char list, in order.  Fuel is
the length of the scanned list. -/
def tokenRuns : Nat → List Char → List (List Char)
  | 0, _ => []
  | _ + 1, [] => []
  | fuel + 1, c :: rest =>
    if isTokChar c then
      (c :: rest.takeWhile isTokChar) :: tokenRuns fuel (rest.dropWhile isTokChar)
    else
      tokenRuns fuel rest

/-- The matches of TOKEN_RE (token-class runs of length at least 3), which is
what re.finditer produces on maximal class runs. -/
def tokenMatches (s : String) : List String :=
  ((tokenRuns s.toList.length s.toList).filter (fun r => 3 ≤ r.length)).map
    String.mk

/-- The BRANDY match inside one maximal token-class run: the suffix starting
at the first letter that still leaves at least three characters, which is
exactly where the leftmost greedy regex match succeeds. -/
def brandyOfRun : List Char → Option (List Char)
  | [] => none
  | c :: rest =>
    if c.isAlpha && 2 ≤ rest.length then some (c :: rest) else brandyOfRun rest

/-- The matches of BRANDY (an ASCII letter followed by at least two
token-class characters) over a string. -/
def brandyMatches (s : String) : List String :=
  ((tokenRuns s.toList.length s.toList).filterMap brandyOfRun).map String.mk

/-- The matches of QUOTED, the regex for a double-quoted nonempty phrase: a
left-to-right scan in which a quote opens a capture, a closing quote emits a
nonempty capture, and two adjacent quotes make the second one the new opening
quote (the regex fails on an empty body and restarts there). -/
def quotedScan : List Char → Option (List Char) → List (List Char)
  | [], _ => []
  | c :: rest, none =>
    if c = '"' then quotedScan rest (some []) else quotedScan rest none
  | c :: rest, some buf =>
    if c = '"' then
      if buf.isEmpty then quotedScan rest (some [])
      else buf.reverse :: quotedScan rest none
    else quotedScan rest (some (c :: buf))

/-- Python-style first-seen-order deduplication of a string list. -/
def dedupeAux (seen : List String) : List String → List String
  | [] => []
  | t :: rest =>
    if seen.contains t then dedupeAux seen rest
    else t :: dedupeAux (seen ++ [t]) rest

/-- Test whether the string s ends with the given suffix. -/
def endsWithS (s suffix : String) : Bool :=
  suffix.toList.reverse.isPrefixOf s.toList.reverse

/-- router_agent.py STOPWORDS: glue words dropped from BM25 queries. -/
def routerStopwords : List String :=
  ["which", "what", "who", "where", "when", "how", "why",
   "file", "document", "doc", "contains", "contain", "mentions", "about",
   "answers", "answer", "info",
   "is", "are", "was", "were", "be", "to", "of", "in", "on", "for", "with",
   "and", "or", "the", "a", "an",
   "has", "have", "had", "talk", "talks", "regarding"]

/-- router_agent.py detect_brand_tokens: the quoted phrases followed by the
brand-like tokens of the raw question, deduplicated in first-seen order. -/
def detect_brand_tokens (query : String) : List String :=
  let phrases := (quotedScan query.toList none).map String.mk
  let tokens := brandyMatches query
  dedupeAux [] (phrases ++ tokens)

/-- router_agent.py add_quotes_if_helpful: wrap each strong token of the
query in double quotes unless the quoted form is already present. -/
def add_quotes_if_helpful (query : String) (tokens : List String) : String :=
  if tokens.isEmpty then query
  else
    tokens.foldl (fun quoted t =>
      if containsSub quoted.toList ("\"" ++ t ++ "\"").toList then quoted
      else pyReplace quoted t ("\"" ++ t ++ "\"")) query

/-- The loop body of build_bm25_query: append an unseen token, and right
after it a naive plural variant when the token does not already end in s. -/
def bm25QueryStep (acc : List String × List String) (token : String) :
    List String × List String :=
  if routerStopwords.contains token then acc
  else if acc.1.contains token then acc
  else
    let acc1 := (acc.1 ++ [token], acc.2 ++ [token])
    if !(endsWithS token "s") then
      let plural := token ++ "s"
      if acc1.1.contains plural then acc1
      else (acc1.1 ++ [plural], acc1.2 ++ [plural])
    else acc1

/-- router_agent.py build_bm25_query: stopword-filtered OR-join of the token
matches of the lowercased question, with naive plural variants; falls back to
the original question when everything was filtered out. -/
def build_bm25_query (freeform : String) : String :=
  let tokens := (tokenMatches (pyLower freeform)).foldl bm25QueryStep ([], [])
  if tokens.2.isEmpty then freeform
  else " OR ".intercalate tokens.2

-- ======================================================================
-- router_agent.py: the routing state machine (instrumented model)
-- ======================================================================

/-- External collaborators of route_and_run: the fused retriever (question,
cutoff, chroma depth, keyword depth), the keyword engine, the generative
model and the filesystem mtimes. -/
structure RouterEnv where
  retrieve : String → Option Int → Nat → Nat → List Hit
  bm25 : String → Nat → List BmRow
  llm : String → String
  mtime : String → Option Int

/-- Observable outcome of one route_and_run call: the returned mode, what was
printed (the LLM answer and its source list, a ranked file list, or a plain
message), how many generative calls were made, and the log of fused-retrieval
calls as (query, chroma depth, keyword depth) triples. -/
structure RouterOut where
  mode : String
  answerText : Option String
  printedMsg : Option String
  citations : List Hit
  files : List (String × List Hit)
  llmCalls : Nat
  retrieveLog : List (String × Nat × Nat)
deriving DecidableEq

/-- Append a value to the group of key k, creating the group at the end on
first sight (Python defaultdict insertion order). -/
def groupAdd (acc : List (String × List α)) (k : String) (v : α) :
    List (String × List α) :=
  if acc.any (fun e => e.1 = k) then
    acc.map (fun e => if e.1 = k then (e.1, e.2 ++ [v]) else e)
  else acc ++ [(k, [v])]

/-- Group a list of values by a string key, in first-seen key order. -/
def groupByKey (key : α → String) (l : List α) : List (String × List α) :=
  l.foldl (fun acc v => groupAdd acc (key v) v) []

/-- The lightweight SimpleNamespace hit the router builds from a BM25 row in
file-lookup mode. -/
def rowToFileHit (row : BmRow) : Hit :=
  { chunk_id := row.chunk_id, source := row.source, page := row.page,
    text := row.snippet, chroma_rank := none, bm25_rank := some 1,
    rrf_score := 0 }

/-- Comparator ordering groups by size (used descending with a stable sort,
as Python sorted with key len and reverse=True). -/
def groupLenLe (a b : String × List α) : Bool :=
  decide (a.2.length ≤ b.2.length)

/-- The score_file key of the router: whether any hit has a BM25 rank, then
the best fused score, compared lexicographically as Python compares tuples
(False before True). -/
def score_file (hits : List Hit) : Bool × ℚ :=
  (hits.any (fun h => h.bm25_rank.isSome),
   hits.foldl (fun acc h => max acc h.rrf_score) 0)

/-- Lexicographic tuple comparison for (hasKeywordHit, bestFusedScore). -/
def tupleLe (a b : Bool × ℚ) : Bool :=
  if a.1 = b.1 then decide (a.2 ≤ b.2)
  else decide (a.1 = false)

/-- Comparator for the ranked_files sort of the router. -/
def fileGroupLe (a b : String × List Hit) : Bool :=
  tupleLe (score_file a.2) (score_file b.2)

/-- Shared tail of the Q and A branch once hits exist: assemble the context,
prompt the generative model once, and print the answer with its sources. -/
def answerWith (env : RouterEnv) (question : String) (k_ctx : Nat)
    (hits : List Hit) (log : List (String × Nat × Nat)) : RouterOut :=
  let cb := build_context_block hits k_ctx
  let answer_text := env.llm (build_prompt question cb.1)
  { mode := "answer", answerText := some answer_text, printedMsg := none,
    citations := cb.2, files := [], llmCalls := 1, retrieveLog := log }

/-- Rank hybrid hits grouped by file for the file-lookup mode: prefer any
BM25 presence, then the best fused score, keeping the top ten files. -/
def rankFilesFused (hits : List Hit) : List (String × List Hit) :=
  (sortRevStable fileGroupLe (groupByKey Hit.source hits)).take 10

/-- Rank BM25-only rows grouped by file by their hit count, keeping the top
ten files. -/
def rankFilesBm25 (rows : List BmRow) : List (String × List Hit) :=
  (sortRevStable groupLenLe
    (groupByKey (fun h => h.source) (rows.map rowToFileHit))).take 10

/-- The brand-first quoted variants the router builds from the strong tokens
in file-lookup mode. -/
def brandVariants (strong : List String) : List String :=
  strong.foldl (fun acc t =>
    let acc1 := acc ++ ["\"" ++ t ++ "\""]
    if endsWithS t "s" && 3 < t.length then
      acc1 ++ ["\"" ++ String.mk t.toList.dropLast ++ "\""]
    else
      acc1 ++ ["\"" ++ t ++ "s\""]) []

/-- router_agent.py route_and_run: classify the intent, run retrieval with
one retry per branch, and return the printed outcome (file-lookup branch
first, then the Q and A branch). -/
def route_and_run (env : RouterEnv) (question : String) (k_ctx : Nat)
    (before_dt : Option Int) : RouterOut :=
  let brand_tokens := detect_brand_tokens question
  if is_file_lookup question then
    let strong := brand_tokens.filter
      (fun t => !(routerStopwords.contains (pyLower t)))
    let bm_query := if !strong.isEmpty then
        " OR ".intercalate (dedupeAux [] (brandVariants strong))
      else build_bm25_query question
    let rows0 := env.bm25 bm_query 100
    let rows1 := if rows0.isEmpty && !strong.isEmpty then
        env.bm25 (build_bm25_query question) 100
      else rows0
    let rows := match before_dt with
      | none => rows1
      | some _ =>
        rows1.filter (fun r => passes_before_filter env.mtime r.source before_dt)
    if !rows.isEmpty then
      { mode := "files", answerText := none, printedMsg := none,
        citations := [], files := rankFilesBm25 rows, llmCalls := 0,
        retrieveLog := [] }
    else
      let ckbk := if brand_tokens.isEmpty then (2, 80) else (1, 100)
      let hits := env.retrieve question before_dt ckbk.1 ckbk.2
      let log1 := [(question, ckbk.1, ckbk.2)]
      if hits.isEmpty then
        let q2 := add_quotes_if_helpful question brand_tokens
        let hits2 := env.retrieve q2 before_dt ckbk.1 (max ckbk.2 120)
        let log2 := log1 ++ [(q2, ckbk.1, max ckbk.2 120)]
        if hits2.isEmpty then
          let rows2 := env.bm25 q2 100
          let rows3 := match before_dt with
            | none => rows2
            | some _ =>
              rows2.filter
                (fun r => passes_before_filter env.mtime r.source before_dt)
          if !rows3.isEmpty then
            { mode := "files", answerText := none, printedMsg := none,
              citations := [], files := rankFilesBm25 rows3, llmCalls := 0,
              retrieveLog := log2 }
          else
            { mode := "files", answerText := none,
              printedMsg := some "\nNo results.\n", citations := [],
              files := [], llmCalls := 0, retrieveLog := log2 }
        else
          { mode := "files", answerText := none, printedMsg := none,
            citations := [], files := rankFilesFused hits2, llmCalls := 0,
            retrieveLog := log2 }
      else
        { mode := "files", answerText := none, printedMsg := none,
          citations := [], files := rankFilesFused hits, llmCalls := 0,
          retrieveLog := log1 }
  else
    let ckbk := if brand_tokens.isEmpty then (8, 20) else (6, 50)
    let hits := env.retrieve question before_dt ckbk.1 ckbk.2
    let log1 := [(question, ckbk.1, ckbk.2)]
    if hits.isEmpty then
      let q2 := add_quotes_if_helpful question brand_tokens
      let ck2 := max (ckbk.1 - 2) 2
      let bk2 := max ckbk.2 60
      let hits2 := env.retrieve q2 before_dt ck2 bk2
      let log2 := log1 ++ [(q2, ck2, bk2)]
      if hits2.isEmpty then
        { mode := "answer", answerText := none,
          printedMsg :=
            some "\nI couldn\x27t retrieve any relevant chunks to answer that.\n",
          citations := [], files := [], llmCalls := 0, retrieveLog := log2 }
      else answerWith env question k_ctx hits2 log2
    else answerWith env question k_ctx hits log1

-- ======================================================================
-- llm_agent.py: data model of the bounded ReAct tool loop
-- ======================================================================

/-- llm_agent.py MAX_STEPS_DEFAULT. -/
def MAX_STEPS_DEFAULT : Nat := 4

/-- The fixed system prompt seeding the agent transcript (llm_agent.py
SYSTEM_PROMPT, with braces escaped). -/
def SYSTEM_PROMPT : String :=
  "You are a helpful research assistant with tool access.\nDecide which tool to use and in what order. Use short reasoning and act.\n\nTOOLS(Action -> Args JSON):\n- bm25_search: \x7b\"query\": str, \"k\": int?\x7d\n- chroma_search: \x7b\"query\": str, \"k\": int?\x7d\n- hybrid_retrieve: \x7b\"query\": str, \"ck\": int?, \"bk\": int?, \"k_ctx\": int?\x7d\n- final_answer: \x7b\"question\": str, \"context_block\": str\x7d\n\nProtocol you MUST follow:\n1) To call a tool, output EXACTLY:\n   Action: <bm25_search|chroma_search|hybrid_retrieve|final_answer>\n   Args: \x7b\"key\": \"value\", ...\x7d\n2) When you are ready to answer, output:\n   FinalAnswer: <final user-facing text>\n3) Always choose an action. Do not ask the user to rephrase.\n\nGuidance:\n-If user asks \"which/what file/doc\", prefer bm25_search first (you can stop there).\n-If user asks who/what/when/why/how, call hybrid_retrieve then final_answer.\n-Use at most 4 actions. Cite sources only via final_answer.\n"

/-- One chosen hit as the agent keeps it after a hybrid_retrieve call (the
dict fields read back when formatting the source list). -/
structure AgentHit where
  source : String
  page : Int
  chunk_id : String
deriving DecidableEq

/-- One BM25 row as the agent keeps it after a bm25_search call (the dict
fields read back when formatting the file list). -/
structure ARow where
  source : String
  page : Int
  snippet : String
  rank : Int
deriving DecidableEq

/-- The dict a tool execution returns, with the keys the loop reads back
( context_block and hits after hybrid_retrieve, rows after bm25_search,
answer after final_answer). -/
structure ToolResult where
  context_block : Option String
  hits : Option (List AgentHit)
  rows : Option (List ARow)
  answer : Option String
deriving DecidableEq

/-- Outcome of matching one model reply against the two protocol regexes,
FinalAnswer first (the loop checks FINAL_RE before ACTION_RE). -/
inductive ParsedReply
  | finalAnswer (text : String)
  | action (tool : String) (argsJson : String)
  | noMatch
deriving DecidableEq

/-- The four registered tools. -/
inductive ToolName
  | bm25_search
  | chroma_search
  | hybrid_retrieve
  | final_answer
deriving DecidableEq

/-- The TOOLS registry lookup by name. -/
def TOOLS_get (name : String) : Option ToolName :=
  if name = "bm25_search" then some ToolName.bm25_search
  else if name = "chroma_search" then some ToolName.chroma_search
  else if name = "hybrid_retrieve" then some ToolName.hybrid_retrieve
  else if name = "final_answer" then some ToolName.final_answer
  else none

/-- External collaborators of run_agent: the chat model on the flattened
transcript, the regex protocol parse of its reply, the JSON parse of the
Args (an opaque payload on success), tool execution (an exception message on
failure), the JSON dump of a tool result, and the writer model used by the
graceful fallback. -/
structure AgentEnv where
  llm : String → String
  parse : String → ParsedReply
  jsonParse : String → Option String
  exec : ToolName → String → Except String ToolResult
  dumps : ToolResult → String
  writer : String → String

/-- The loop state of run_agent: the transcript and the remembered outputs of
the most recent hybrid_retrieve and bm25_search calls. -/
structure AgentState where
  transcript : List (String × String)
  lastContextBlock : Option String
  lastChosenHits : Option (List AgentHit)
  lastBm25Rows : Option (List ARow)
deriving DecidableEq

/-- The initial transcript: the system prompt and the user question. -/
def initAgentState (question : String) : AgentState :=
  { transcript := [("system", SYSTEM_PROMPT), ("user", question)],
    lastContextBlock := none, lastChosenHits := none, lastBm25Rows := none }

/-- Model of Python str.upper for the role tags. -/
def pyUpper (s : String) : String :=
  String.mk (s.toList.map Char.toUpper)

/-- Model of Python str.strip: drop whitespace from both ends. -/
def pyStrip (s : String) : String :=
  String.mk
    (((s.toList.dropWhile Char.isWhitespace).reverse.dropWhile
        Char.isWhitespace).reverse)

/-- Flatten the transcript into the single text block sent to the model. -/
def flattenTranscript (t : List (String × String)) : String :=
  String.intercalate "\n\n" (t.map (fun rc => pyUpper rc.1 ++ ": " ++ rc.2))

/-- A row of one hundred equal signs used by the console formatting. -/
def eq100 : String :=
  String.mk (List.replicate 100 '=')

/-- Python truthiness of an optional string (None and the empty string are
falsy). -/
def truthyStr : Option String → Bool
  | none => false
  | some s => !(s = "")

/-- Python truthiness of an optional list (None and the empty list are
falsy). -/
def truthyList : Option (List α) → Bool
  | none => false
  | some l => !l.isEmpty

/-- Terminal message when the loop exhausts its steps after a parsed action. -/
def ranOutMsg : String :=
  "I ran out of steps before reaching a final answer."

/-- Terminal message when the last reply parsed as nothing and no hybrid
context was available. -/
def couldNotDecideMsg : String :=
  "I couldn\x27t decide on a tool. Please rephrase or be more specific."

/-- Synthetic observation appended when a reply matches neither protocol
shape before the last step. -/
def nudgeObs : String :=
  "Observation:invalid or missing Action/Args. Try again."

/-- Synthetic observation appended when the Args JSON fails to parse. -/
def jsonErrObs : String :=
  "Observation:Args JSON could not be parsed."

/-- Synthetic observation appended for an unregistered tool name. -/
def unknownToolObs (name : String) : String :=
  "Observation:unknown tool \x27" ++ name ++ "\x27."

/-- Synthetic observation appended when tool execution raises. -/
def toolErrObs (name msg : String) : String :=
  "Observation:tool \x27" ++ name ++ "\x27 errored:" ++ msg

/-- The source-list block printed under a final answer produced after a
hybrid_retrieve call. -/
def formatAnswerSources (final_text : String) (hits : List AgentHit) :
    String :=
  String.intercalate "\n"
    (["\n" ++ eq100, "ANSWER:\n", pyStrip final_text, "\nSOURCES:"] ++
      (List.enumFrom 1 hits).map (fun p =>
        "[" ++ Nat.repr p.1 ++ "] " ++ p.2.source ++ " | p" ++
          Int.repr p.2.page ++ " | " ++ p.2.chunk_id) ++
      [eq100 ++ "\n"])

/-- First maximal element of a nonempty list by an integer key (Python max
keeps the first of several maxima). -/
def pyMaxBy (key : α → Int) (x : α) (l : List α) : α :=
  l.foldl (fun best v => if key best < key v then v else best) x

/-- Replace newlines by spaces, as the snippet preview does. -/
def newlinesToSpaces (s : String) : String :=
  String.mk (s.toList.map (fun c => if c = '\n' then ' ' else c))

/-- One line pair of the agent file list for group (src, rows). -/
def agentFileLines (p : Nat × (String × List ARow)) : List String :=
  match p.2.2 with
  | [] => []
  | r :: rs =>
    let best := pyMaxBy ARow.rank r rs
    let snippet0 := newlinesToSpaces best.snippet
    let snippet := if 160 < snippet0.length
      then pyTake snippet0 160 ++ "..." else snippet0
    [Nat.repr p.1 ++ ". " ++ p.2.1 ++ "  (page≈" ++ Int.repr best.page ++ ")",
     "   e.g., “" ++ snippet ++ "”"]

/-- The file-list block printed when the agent answered after only a
bm25_search call: group rows by file, rank by row count, keep ten. -/
def formatBm25Files (rows : List ARow) : String :=
  let ranked := (sortRevStable groupLenLe (groupByKey ARow.source rows)).take 10
  String.intercalate "\n"
    (["\n" ++ eq100, "FILES (most relevant first):\n"] ++
      ((List.enumFrom 1 ranked).map agentFileLines).flatten ++
      [eq100 ++ "\n"])

/-- Formatting of a FinalAnswer reply: decorate with the sources of the last
hybrid call if any, else with the file list of the last bm25 call if any,
else return the bare stripped text. -/
def formatFinal (st : AgentState) (txt : String) : String :=
  if truthyList st.lastChosenHits then
    formatAnswerSources (pyStrip txt) (st.lastChosenHits.getD [])
  else if truthyList st.lastBm25Rows then
    formatBm25Files (st.lastBm25Rows.getD [])
  else pyStrip txt

/-- The graceful degradation output at the last step: synthesize an answer
from the remembered hybrid context and print it with the remembered
sources. -/
def fallbackFormat (env : AgentEnv) (question : String) (st : AgentState) :
    String :=
  let fallback_answer := env.writer
    (build_prompt question (st.lastContextBlock.getD ""))
  String.intercalate "\n"
    (["\n" ++ eq100, "ANSWER:\n", pyStrip fallback_answer, "\nSOURCES:"] ++
      (match st.lastChosenHits with
       | none => []
       | some hs =>
         if hs.isEmpty then []
         else (List.enumFrom 1 hs).map (fun p =>
           "[" ++ Nat.repr p.1 ++ "] " ++ p.2.source ++ " | p" ++
             Int.repr p.2.page ++ " | " ++ p.2.chunk_id)) ++
      [eq100 ++ "\n"])

/-- Truncation of the observation string at 4000 characters. -/
def truncObs (s : String) : String :=
  if 4000 < s.length then pyTake s 4000 ++ "...(truncated)" else s

/-- State update after a successful tool execution: remember the context and
hits of a hybrid_retrieve, or the rows of a bm25_search. -/
def captureState (tool : ToolName) (result : ToolResult) (st : AgentState) :
    AgentState :=
  match tool with
  | ToolName.hybrid_retrieve =>
    { st with lastContextBlock := result.context_block,
              lastChosenHits := some (result.hits.getD []) }
  | ToolName.bm25_search =>
    { st with lastBm25Rows := some (result.rows.getD []) }
  | _ => st

/-- Append one observation turn to the transcript of a state. -/
def appendObs (st : AgentState) (obs : String) : AgentState :=
  { st with transcript := st.transcript ++ [("tool", obs)] }

/-- llm_agent.py run_agent, instrumented with the count of model turns: one
iteration per remaining step, each invoking the chat model exactly once,
parsing FinalAnswer before Action, executing the chosen tool with local
recovery of every failure, and falling back gracefully when the last reply
parses as nothing. -/
def run_agentAux (env : AgentEnv) (question : String) :
    Nat → AgentState → String × Nat
  | 0, _ => (ranOutMsg, 0)
  | stepsLeft + 1, st =>
    let model_text := env.llm (flattenTranscript st.transcript)
    let st1 := { st with
                 transcript := st.transcript ++ [("assistant", model_text)] }
    match env.parse model_text with
    | ParsedReply.finalAnswer txt => (formatFinal st1 txt, 1)
    | ParsedReply.action toolName argsJson =>
      (match env.jsonParse argsJson with
       | none =>
         let next := run_agentAux env question stepsLeft (appendObs st1 jsonErrObs)
         (next.1, next.2 + 1)
       | some args =>
         match TOOLS_get toolName with
         | none =>
           let next := run_agentAux env question stepsLeft
             (appendObs st1 (unknownToolObs toolName))
           (next.1, next.2 + 1)
         | some tool =>
           match env.exec tool args with
           | Except.error e =>
             let next := run_agentAux env question stepsLeft
               (appendObs st1 (toolErrObs toolName e))
             (next.1, next.2 + 1)
           | Except.ok result =>
             let st2 := captureState tool result st1
             let next := run_agentAux env question stepsLeft
               (appendObs st2 ("Observation:" ++ truncObs (env.dumps result)))
             (next.1, next.2 + 1))
    | ParsedReply.noMatch =>
      if stepsLeft = 0 then
        if truthyStr st1.lastContextBlock then
          (fallbackFormat env question st1, 1)
        else (couldNotDecideMsg, 1)
      else
        let next := run_agentAux env question stepsLeft (appendObs st1 nudgeObs)
        (next.1, next.2 + 1)

/-- llm_agent.py run_agent: the terminal text of the bounded ReAct loop. -/
def run_agent (env : AgentEnv) (question : String) (max_steps : Nat) :
    String :=
  (run_agentAux env question max_steps (initAgentState question)).1

/-- Number of model turns a run of the agent issues. -/
def run_agent_turns (env : AgentEnv) (question : String) (max_steps : Nat) :
    Nat :=
  (run_agentAux env question max_steps (initAgentState question)).2

-- ======================================================================
-- Derived definitions used by the verification statements
-- ======================================================================

/-- Value of a decimal digit character. -/
def digitVal (c : Char) : Nat :=
  c.toNat - '0'.toNat

/-- Value of a decimal digit string (most significant digit first). -/
def decValue (l : List Char) : Nat :=
  l.foldl (fun acc c => acc * 10 + digitVal c) 0

/-- The default chunk used for out-of-range reads in index statements. -/
def defChunk : Chunk :=
  { source := "", page := 0, text := "" }

/-- The page key of the chunk at position i. -/
def keyAt (chunks : List Chunk) (i : Nat) : String :=
  pageKey (chunks.getD i defChunk)

/-- The within-page counter sequence determined by a key sequence: position 0
gets 0, and each later position increments the previous counter when the key
repeats and resets to 0 when it changes. -/
def ctrF (keys : Nat → String) : Nat → Nat
  | 0 => 0
  | i + 1 => if keys (i + 1) = keys i then ctrF keys i + 1 else 0

/-- The counter sequence of assignGo started from carried state (last, idx). -/
def ctrG (last : Option String) (idx : Nat) (keys : Nat → String) : Nat → Nat
  | 0 => if some (keys 0) = last then idx + 1 else 0
  | i + 1 => if keys (i + 1) = keys i then ctrG last idx keys i + 1 else 0

/-- Whether two chunks agree on the (source, page) pair the id scheme groups
by. -/
def samePage (c c' : Chunk) : Prop :=
  c.source = c'.source ∧ c.page = c'.page

instance (c c' : Chunk) : Decidable (samePage c c') := by
  unfold samePage
  infer_instance

/-- The chunk-id sequence described by the specification: each id is
source, page and a counter that increments across consecutive chunks sharing
the same (source, page) pair and resets to 0 on change. -/
def expectedGo (prev : Option Chunk) (idx : Nat) : List Chunk → List String
  | [] => []
  | c :: rest =>
    let idx1 := match prev with
      | some p => if c.source = p.source ∧ c.page = p.page then idx + 1 else 0
      | none => 0
    (c.source ++ ":" ++ Nat.repr c.page ++ ":" ++ Nat.repr idx1) ::
      expectedGo (some c) idx1 rest

/-- The specification-side chunk-id assignment keyed on (source, page)
pairs. -/
def chunkIdsSpec (chunks : List Chunk) : List String :=
  expectedGo none 0 chunks

/-- All chunks sharing one (source, page) pair appear contiguously: no chunk
with a different pair sits between two chunks with equal pairs. -/
def Contiguous (chunks : List Chunk) : Prop :=
  ∀ i j k, i < j → j < k → k < chunks.length →
    samePage (chunks.getD i defChunk) (chunks.getD k defChunk) →
    samePage (chunks.getD j defChunk) (chunks.getD i defChunk)

/-- The in-place update rrf_add applies to the Hit stored at its key: add
the reciprocal-rank contribution and record the per-engine rank. -/
def engineBump (engine : Engine) (rank : Nat) (h : Hit) : Hit :=
  let h1 := { h with rrf_score := h.rrf_score + 1 / (RRF_K + rank) }
  match engine with
  | Engine.chroma => { h1 with chroma_rank := some rank }
  | Engine.bm25 => { h1 with bm25_rank := some rank }

/-- Patch one fused entry with the contribution of the engine meta list l:
when l holds the entry key, bump the stored hit with that rank. -/
def patchE (engine : Engine) (l : List (String × Meta)) (e : String × Hit) :
    String × Hit :=
  match l.lookup e.1 with
  | none => e
  | some mt => (e.1, engineBump engine mt.rank e.2)

/-- The fused entry created for a key first discovered by the given engine. -/
def newEntry (engine : Engine) (p : String × Meta) : String × Hit :=
  (p.1, engineBump engine p.2.rank (initHit p.1 p.2))

/-- The reciprocal-rank contribution of an optional 1-based rank. -/
def rrfContrib : Option Nat → ℚ
  | none => 0
  | some p => 1 / (RRF_K + p)

/-- The chroma_meta_list entry built from one enumerated chroma pair, none
when the id is empty or the date filter rejects the source. -/
def chromaMetaOf (env : RetEnv) (before : Option Int) (p : Nat × ChromaDoc) :
    Option (String × Meta) :=
  if p.2.id = "" || !(passes_before_filter env.mtime p.2.source before) then none
  else some (p.2.id, { source := p.2.source, page := p.2.page,
                       text := p.2.content, rank := p.1 })

/-- The bm25_meta_list entry built from one enumerated keyword row, with the
full text resolved from the chroma payload when available and the empty
placeholder otherwise. -/
def bm25MetaOf (env : RetEnv) (before : Option Int) (p : Nat × BmRow) :
    Option (String × Meta) :=
  if p.2.chunk_id = "" || !(passes_before_filter env.mtime p.2.source before) then
    none
  else some (p.2.chunk_id, { source := p.2.source, page := p.2.page,
                             text := (chromaTextById env p.2.chunk_id).getD "",
                             rank := p.1 })

/-- The bm25-only id collected from one enumerated keyword row. -/
def bm25OnlyIdOf (env : RetEnv) (before : Option Int) (p : Nat × BmRow) :
    Option String :=
  if p.2.chunk_id = "" || !(passes_before_filter env.mtime p.2.source before) then
    none
  else if (chromaTextById env p.2.chunk_id).isSome then none
  else some p.2.chunk_id

/-- First-discovery precedence of fused hits: hits discovered by the semantic
engine (chroma_rank set) in semantic positional order, all of them before
keyword-only hits, and keyword-only hits in keyword positional order. -/
def firstDiscoveryLt (a b : Hit) : Prop :=
  match a.chroma_rank, b.chroma_rank with
  | some ra, some rb => ra < rb
  | some _, none => True
  | none, some _ => False
  | none, none => ∀ ra rb, a.bm25_rank = some ra → b.bm25_rank = some rb →
      ra < rb

/-- The bm25 meta list of retrieve_hybrid after the batch text fill. -/
def bm25MetaListFilled (env : RetEnv) (before : Option Int) :
    List (String × Meta) :=
  let pass1 := bm25_pass1 env before
  if pass1.2.isEmpty then pass1.1 else pass1.1.map (fillOne env pass1.2)

/-- Witness environment for the temporal-filter claim: one semantic hit over
a file modified at time 5. -/
def envC3 : RetEnv :=
  { mtime := fun _ => some 5, ftsText := fun _ => none,
    chromaResult := [{ id := "a:0:0", source := "a", page := 0,
                       content := "atext" }],
    bm25Result := [] }

/-- The hit envC3 retrieval returns, with its score written exactly as the
fold computes it. -/
def hitC3 : Hit :=
  { chunk_id := "a:0:0", source := "a", page := 0, text := "atext",
    chroma_rank := some 1, bm25_rank := none,
    rrf_score := 0 + 1 / (RRF_K + ((1 : ℕ) : ℚ)) }

/-- Witness environment for the fused-score claim: one semantic result and
no keyword results. -/
def envC1 : RetEnv :=
  { mtime := fun _ => none, ftsText := fun _ => none,
    chromaResult := [{ id := "c1", source := "f", page := 0,
                       content := "body" }],
    bm25Result := [] }

/-- The hit envC1 retrieval returns, with its score written exactly as the
fold computes it. -/
def hitC1 : Hit :=
  { chunk_id := "c1", source := "f", page := 0, text := "body",
    chroma_rank := some 1, bm25_rank := none,
    rrf_score := 0 + 1 / (RRF_K + ((1 : ℕ) : ℚ)) }

/-- Witness environment for payload resolution: one keyword row whose batch
full-text lookup returns no row, and no semantic results. -/
def envC10 : RetEnv :=
  { mtime := fun _ => none, ftsText := fun _ => none,
    chromaResult := [],
    bm25Result := [{ chunk_id := "b:0:0", source := "b", page := 0,
                     snippet := "bsnip" }] }

/-- The single keyword row of envC10. -/
def rowC10 : BmRow :=
  { chunk_id := "b:0:0", source := "b", page := 0, snippet := "bsnip" }

/-- The transcript state after the model turn of one loop iteration: the
assistant reply appended to the incoming state. -/
def agentStep1 (env : AgentEnv) (st : AgentState) : AgentState :=
  { st with transcript := st.transcript ++
      [("assistant", env.llm (flattenTranscript st.transcript))] }

/-- The first-attempt depths of the Q and A branch of route_and_run:
(8, 20) without brand-like tokens, (6, 50) with them. -/
def qaCkBk (question : String) : Nat × Nat :=
  if (detect_brand_tokens question).isEmpty then (8, 20) else (6, 50)

/-- The tool result of the always-succeeding hybrid_retrieve of envC5. -/
def resC5 : ToolResult :=
  { context_block := some "ctx", hits := some [], rows := none,
    answer := none }

/-- Agent environment whose model always chooses a hybrid_retrieve action
that succeeds and captures a context block. -/
def envC5 : AgentEnv :=
  { llm := fun _ => "act",
    parse := fun _ => ParsedReply.action "hybrid_retrieve" "a",
    jsonParse := fun _ => some "a",
    exec := fun _ _ => Except.ok resC5,
    dumps := fun _ => "d", writer := fun _ => "w" }

/-- The loop state of envC5 after its single step: assistant reply, captured
hybrid context and the tool observation appended. -/
def stC5 : AgentState :=
  appendObs
    (captureState ToolName.hybrid_retrieve resC5
      (agentStep1 envC5 (initAgentState "q")))
    ("Observation:" ++ truncObs (envC5.dumps resC5))

/-- Agent environment whose model reply never matches either protocol
shape. -/
def envC5w : AgentEnv :=
  { llm := fun _ => "noise", parse := fun _ => ParsedReply.noMatch,
    jsonParse := fun _ => none,
    exec := fun _ _ => Except.error "unused",
    dumps := fun _ => "d", writer := fun _ => "w" }

/-- Agent environment whose model always emits an action with unparsable
Args JSON. -/
def envC7 : AgentEnv :=
  { llm := fun _ => "act", parse := fun _ => ParsedReply.action "badtool" "j",
    jsonParse := fun _ => none,
    exec := fun _ _ => Except.error "boom",
    dumps := fun _ => "d", writer := fun _ => "w" }

/-- Router environment whose engines return nothing at any query. -/
def envC6 : RouterEnv :=
  { retrieve := fun _ _ _ _ => [], bm25 := fun _ _ => [],
    llm := fun _ => "llmout", mtime := fun _ => none }

/-- Default Hit value used for out-of-range reads in statements. -/
def defHit : Hit :=
  { chunk_id := "", source := "", page := 0, text := "", chroma_rank := none,
    bm25_rank := none, rrf_score := 0 }

-- ======================================================================
-- Lemmas: decimal digit strings
-- ======================================================================

theorem digitVal_digitChar {n : Nat} (h : n < 10) :
    digitVal (Nat.digitChar n) = n := by
  have h10 : ∀ m, m < 10 → digitVal (Nat.digitChar m) = m := by decide
  exact h10 n h

theorem digitChar_isDigit {n : Nat} (h : n < 10) :
    (Nat.digitChar n).isDigit = true := by
  have h10 : ∀ m, m < 10 → (Nat.digitChar m).isDigit = true := by decide
  exact h10 n h

theorem toDigitsCore_append (f : Nat) : ∀ (n : Nat) (ds : List Char),
    Nat.toDigitsCore 10 f n ds = Nat.toDigitsCore 10 f n [] ++ ds := by
  induction f with
  | zero => intro n ds; simp [Nat.toDigitsCore]
  | succ f ih =>
    intro n ds
    simp only [Nat.toDigitsCore]
    by_cases h : n / 10 = 0
    · simp [h]
    · simp only [h, if_false]
      rw [ih (n / 10) (Nat.digitChar (n % 10) :: ds),
          ih (n / 10) [Nat.digitChar (n % 10)]]
      simp

theorem toDigitsCore_fuel (n : Nat) : ∀ f g : Nat, n < f → n < g →
    Nat.toDigitsCore 10 f n [] = Nat.toDigitsCore 10 g n [] := by
  induction n using Nat.strong_induction_on with
  | _ n ih =>
    intro f g hf hg
    obtain ⟨f', rfl⟩ : ∃ f', f = f' + 1 := ⟨f - 1, by omega⟩
    obtain ⟨g', rfl⟩ : ∃ g', g = g' + 1 := ⟨g - 1, by omega⟩
    simp only [Nat.toDigitsCore]
    by_cases h : n / 10 = 0
    · simp [h]
    · simp only [h, if_false]
      have hn : 0 < n := by
        rcases Nat.eq_zero_or_pos n with h0 | h0
        · exact absurd (by simp [h0]) h
        · exact h0
      have hlt : n / 10 < n := Nat.div_lt_self hn (by omega)
      rw [toDigitsCore_append f' (n / 10), toDigitsCore_append g' (n / 10),
          ih (n / 10) hlt f' g' (by omega) (by omega)]

theorem decValue_append (l : List Char) (c : Char) :
    decValue (l ++ [c]) = decValue l * 10 + digitVal c := by
  simp [decValue, List.foldl_append]

theorem decValue_toDigits (n : Nat) : decValue (Nat.toDigits 10 n) = n := by
  induction n using Nat.strong_induction_on with
  | _ n ih =>
    unfold Nat.toDigits
    simp only [Nat.toDigitsCore]
    by_cases h : n / 10 = 0
    · have hn : n < 10 := by
        have := (Nat.div_eq_zero_iff (by omega : 0 < 10)).mp h
        omega
      simp [h, decValue, digitVal_digitChar (Nat.mod_lt n (by omega))]
      omega
    · simp only [h, if_false]
      have hn : 0 < n := by
        rcases Nat.eq_zero_or_pos n with h0 | h0
        · exact absurd (by simp [h0]) h
        · exact h0
      have hlt : n / 10 < n := Nat.div_lt_self hn (by omega)
      rw [toDigitsCore_append n (n / 10)]
      have hfuel : Nat.toDigitsCore 10 n (n / 10) [] = Nat.toDigits 10 (n / 10) :=
        toDigitsCore_fuel (n / 10) n (n / 10 + 1) (by omega) (by omega)
      rw [hfuel, decValue_append, ih (n / 10) hlt,
          digitVal_digitChar (Nat.mod_lt n (by omega))]
      omega

theorem natRepr_injective {m n : Nat} (h : Nat.repr m = Nat.repr n) : m = n := by
  have hl : Nat.toDigits 10 m = Nat.toDigits 10 n := congrArg String.data h
  calc m = decValue (Nat.toDigits 10 m) := (decValue_toDigits m).symm
    _ = decValue (Nat.toDigits 10 n) := by rw [hl]
    _ = n := decValue_toDigits n

theorem toDigitsCore_digits (f : Nat) : ∀ (n : Nat) (ds : List Char),
    (∀ c ∈ ds, c.isDigit = true) →
    ∀ c ∈ Nat.toDigitsCore 10 f n ds, c.isDigit = true := by
  induction f with
  | zero => intro n ds hds; simpa [Nat.toDigitsCore] using hds
  | succ f ih =>
    intro n ds hds
    simp only [Nat.toDigitsCore]
    by_cases h : n / 10 = 0
    · simp only [h, if_true]
      intro c hc
      rcases List.mem_cons.mp hc with rfl | hc
      · exact digitChar_isDigit (Nat.mod_lt n (by omega))
      · exact hds c hc
    · simp only [h, if_false]
      refine ih (n / 10) (Nat.digitChar (n % 10) :: ds) ?_
      intro c hc
      rcases List.mem_cons.mp hc with rfl | hc
      · exact digitChar_isDigit (Nat.mod_lt n (by omega))
      · exact hds c hc

theorem natRepr_no_colon (n : Nat) : ':' ∉ (Nat.repr n).toList := by
  intro hmem
  have hd : (':' : Char).isDigit = true :=
    toDigitsCore_digits (n + 1) n [] (by simp) ':' hmem
  exact absurd hd (by decide)

theorem colon_split : ∀ (a b u v : List Char), ':' ∉ u → ':' ∉ v →
    a ++ ':' :: u = b ++ ':' :: v → a = b ∧ u = v := by
  intro a
  induction a with
  | nil =>
    intro b u v hu hv h
    cases b with
    | nil => simpa using h
    | cons d b' =>
      simp only [List.nil_append, List.cons_append, List.cons.injEq] at h
      exact absurd (h.2 ▸ List.mem_append_right b' (List.mem_cons_self ':' v)) hu
  | cons c a' ih =>
    intro b u v hu hv h
    cases b with
    | nil =>
      simp only [List.nil_append, List.cons_append, List.cons.injEq] at h
      exact absurd (h.2.symm ▸ List.mem_append_right a' (List.mem_cons_self ':' u)) hv
    | cons d b' =>
      simp only [List.cons_append, List.cons.injEq] at h
      obtain ⟨h1, h2⟩ := ih b' u v hu hv h.2
      exact ⟨by rw [h.1, h1], h2⟩

theorem string_toList_inj {s t : String} (h : s.toList = t.toList) : s = t := by
  cases s; cases t
  simp only [String.toList] at h
  exact congrArg String.mk h

theorem pageKey_toList (c : Chunk) :
    (pageKey c).toList = c.source.toList ++ ':' :: (Nat.repr c.page).toList := by
  simp [pageKey, String.toList, String.data_append]

theorem pageKey_inj {c c' : Chunk} (h : pageKey c = pageKey c') :
    c.source = c'.source ∧ c.page = c'.page := by
  have h' := congrArg String.toList h
  rw [pageKey_toList, pageKey_toList] at h'
  obtain ⟨hs, hp⟩ := colon_split _ _ _ _ (natRepr_no_colon c.page)
    (natRepr_no_colon c'.page) h'
  refine ⟨string_toList_inj hs, natRepr_injective (string_toList_inj hp)⟩

theorem samePage_iff_pageKey {c c' : Chunk} :
    samePage c c' ↔ pageKey c = pageKey c' := by
  constructor
  · rintro ⟨h1, h2⟩
    simp [pageKey, h1, h2]
  · exact fun h => pageKey_inj h

-- ======================================================================
-- Chunk identity: C8
-- ======================================================================

theorem assignGo_eq_expectedGo : ∀ (rest : List Chunk) (prev : Option Chunk)
    (idx : Nat), assignGo (prev.map pageKey) idx rest = expectedGo prev idx rest := by
  intro rest
  induction rest with
  | nil => intro prev idx; rfl
  | cons c rest ih =>
    intro prev idx
    simp only [assignGo, expectedGo]
    cases prev with
    | none =>
      simp only [Option.map]
      rw [if_neg (by simp)]
      have h2 := ih (some c) 0
      simp only [Option.map] at h2
      rw [h2]
      simp [pageKey]
    | some p =>
      simp only [Option.map]
      by_cases hsame : c.source = p.source ∧ c.page = p.page
      · have hk : pageKey c = pageKey p := samePage_iff_pageKey.mp hsame
        rw [if_pos hsame, if_pos (congrArg some hk)]
        have h2 := ih (some c) (idx + 1)
        simp only [Option.map] at h2
        rw [h2]
        simp [pageKey]
      · have hk : ¬ some (pageKey c) = some (pageKey p) := by
          simp only [Option.some.injEq]
          intro hk
          exact hsame (pageKey_inj hk)
        rw [if_neg hsame, if_neg hk]
        have h2 := ih (some c) 0
        simp only [Option.map] at h2
        rw [h2]
        simp [pageKey]

/-- C8: assign_chunk_ids is a pure function of the ordered chunk sequence and
its (source, page) metadata, assigning source:page:i with i incrementing
across consecutive chunks of equal (source, page) and resetting to 0 on
change; the BM25 indexer and the Chroma indexer implement the identical
assignment, so identical input sequences always receive identical ids in both
pipelines. -/
theorem C8_assign_chunk_ids_spec (chunks : List Chunk) :
    assign_chunk_ids chunks = chunkIdsSpec chunks ∧
    assign_chunk_ids_bm25 chunks = chunkIdsSpec chunks := by
  have h := assignGo_eq_expectedGo chunks none 0
  simp only [Option.map] at h
  exact ⟨h, h⟩

-- ======================================================================
-- Chunk identity: C9
-- ======================================================================

theorem ctrG_shift (last : Option String) (idx : Nat) (keys : Nat → String) :
    ∀ i, ctrG (some (keys 0)) (ctrG last idx keys 0) (fun j => keys (j + 1)) i =
      ctrG last idx keys (i + 1) := by
  intro i
  induction i with
  | zero => simp [ctrG]
  | succ i ih =>
    have hL : ctrG (some (keys 0)) (ctrG last idx keys 0)
        (fun j => keys (j + 1)) (i + 1) =
        if keys (i + 1 + 1) = keys (i + 1) then
          ctrG (some (keys 0)) (ctrG last idx keys 0)
            (fun j => keys (j + 1)) i + 1
        else 0 := rfl
    have hR : ctrG last idx keys (i + 1 + 1) =
        if keys (i + 1 + 1) = keys (i + 1) then
          ctrG last idx keys (i + 1) + 1
        else 0 := rfl
    rw [hL, hR, ih]

theorem ctrF_eq_ctrG (keys : Nat → String) : ∀ i, ctrF keys i = ctrG none 0 keys i := by
  intro i
  induction i with
  | zero => simp [ctrF, ctrG]
  | succ i ih =>
    simp only [ctrF, ctrG]
    rw [ih]

theorem assignGo_length (rest : List Chunk) : ∀ (last : Option String) (idx : Nat),
    (assignGo last idx rest).length = rest.length := by
  induction rest with
  | nil => intro last idx; rfl
  | cons c rest ih =>
    intro last idx
    simp [assignGo, ih]

theorem assignGo_getD (rest : List Chunk) : ∀ (last : Option String) (idx i : Nat),
    i < rest.length →
    (assignGo last idx rest).getD i "" =
      keyAt rest i ++ ":" ++ Nat.repr (ctrG last idx (keyAt rest) i) := by
  induction rest with
  | nil => intro last idx i hi; exact absurd hi (by simp)
  | cons c rest ih =>
    intro last idx i hi
    cases i with
    | zero =>
      simp [assignGo, keyAt, ctrG]
    | succ i =>
      have hi' : i < rest.length := by simpa using hi
      have hfun : (fun j => keyAt (c :: rest) (j + 1)) = keyAt rest := by
        funext j
        simp [keyAt]
      have hshift := ctrG_shift last idx (keyAt (c :: rest)) i
      rw [hfun] at hshift
      have hkey0 : keyAt (c :: rest) 0 = pageKey c := by simp [keyAt]
      have hc0 : ctrG last idx (keyAt (c :: rest)) 0 =
          (if some (pageKey c) = last then idx + 1 else 0) := by
        simp [ctrG, hkey0]
      simp only [assignGo, List.getD_cons_succ]
      rw [ih (some (pageKey c)) (if some (pageKey c) = last then idx + 1 else 0) i hi']
      rw [← hc0, ← hkey0, hshift]
      have : keyAt (c :: rest) (i + 1) = keyAt rest i := by simp [keyAt]
      rw [this]

theorem assign_chunk_ids_length (chunks : List Chunk) :
    (assign_chunk_ids chunks).length = chunks.length :=
  assignGo_length chunks none 0

theorem assign_chunk_ids_getD (chunks : List Chunk) (i : Nat)
    (hi : i < chunks.length) :
    (assign_chunk_ids chunks).getD i "" =
      keyAt chunks i ++ ":" ++ Nat.repr (ctrF (keyAt chunks) i) := by
  rw [assign_chunk_ids, assignGo_getD chunks none 0 i hi, ctrF_eq_ctrG]

theorem ctrF_le (keys : Nat → String) : ∀ i, ctrF keys i ≤ i := by
  intro i
  induction i with
  | zero => simp [ctrF]
  | succ i ih =>
    simp only [ctrF]
    by_cases h : keys (i + 1) = keys i
    · simp [h]; omega
    · simp [h]

theorem ctrF_run_const (keys : Nat → String) : ∀ i m, m ≤ ctrF keys i →
    keys (i - m) = keys i := by
  intro i
  induction i with
  | zero =>
    intro m hm
    have hm0 : m = 0 := by simpa [ctrF] using hm
    simp [hm0]
  | succ i ih =>
    intro m hm
    by_cases h : keys (i + 1) = keys i
    · simp only [ctrF, if_pos h] at hm
      cases m with
      | zero => rfl
      | succ m' =>
        have hm' : m' ≤ ctrF keys i := by omega
        have hsub : i + 1 - (m' + 1) = i - m' := by omega
        rw [hsub, ih m' hm']
        exact h.symm
    · simp only [ctrF, if_neg h] at hm
      have hm0 : m = 0 := by omega
      simp [hm0]

theorem ctrF_start_zero (keys : Nat → String) : ∀ i,
    ctrF keys (i - ctrF keys i) = 0 := by
  intro i
  induction i with
  | zero => simp [ctrF]
  | succ i ih =>
    by_cases h : keys (i + 1) = keys i
    · have hstep : ctrF keys (i + 1) = ctrF keys i + 1 := by
        simp [ctrF, h]
      rw [hstep]
      have hle := ctrF_le keys i
      have hsub : i + 1 - (ctrF keys i + 1) = i - ctrF keys i := by omega
      rw [hsub]
      exact ih
    · have hstep : ctrF keys (i + 1) = 0 := by simp [ctrF, h]
      rw [hstep]
      simpa using hstep

theorem ctrF_run_increment (keys : Nat → String) (i : Nat) : ∀ j, i ≤ j →
    (∀ t, i ≤ t → t ≤ j → keys t = keys i) →
    ctrF keys j = ctrF keys i + (j - i) := by
  intro j
  induction j with
  | zero =>
    intro hij _
    have : i = 0 := by omega
    simp [this]
  | succ j ih =>
    intro hij hconst
    by_cases hij' : i = j + 1
    · simp [hij']
    · have hij2 : i ≤ j := by omega
      have h1 : keys (j + 1) = keys i := hconst (j + 1) hij (le_refl _)
      have h2 : keys j = keys i := hconst j hij2 (by omega)
      have hstep : ctrF keys (j + 1) = ctrF keys j + 1 := by
        simp [ctrF, h1.trans h2.symm]
      rw [hstep, ih hij2 (fun t ht1 ht2 => hconst t ht1 (by omega))]
      omega

theorem key_ctr_inj {a b : String} {x y : Nat} :
    a ++ ":" ++ Nat.repr x = b ++ ":" ++ Nat.repr y ↔ (a = b ∧ x = y) := by
  constructor
  · intro h
    have h' := congrArg String.toList h
    have hx : a.toList ++ ':' :: (Nat.repr x).toList =
        b.toList ++ ':' :: (Nat.repr y).toList := by
      simpa [String.toList, String.data_append] using h'
    obtain ⟨h1, h2⟩ := colon_split _ _ _ _ (natRepr_no_colon x)
      (natRepr_no_colon y) hx
    exact ⟨string_toList_inj h1, natRepr_injective (string_toList_inj h2)⟩
  · rintro ⟨rfl, rfl⟩
    rfl

theorem getD_eq_get {l : List α} {i : Nat} (h : i < l.length) (d : α) :
    l.getD i d = l.get ⟨i, h⟩ := by
  simp [List.getD_eq_getElem?_getD, List.getElem?_eq_getElem h]

theorem samePage_iff_keyAt {chunks : List Chunk} {i j : Nat} :
    samePage (chunks.getD i defChunk) (chunks.getD j defChunk) ↔
      keyAt chunks i = keyAt chunks j := by
  unfold keyAt
  exact samePage_iff_pageKey

theorem nodup_ids_iff_contiguous (chunks : List Chunk) :
    (assign_chunk_ids chunks).Nodup ↔ Contiguous chunks := by
  have hlen := assign_chunk_ids_length chunks
  constructor
  · intro hnd
    intro i j k hij hjk hk hik
    by_contra hcon
    have hfik : keyAt chunks i = keyAt chunks k := samePage_iff_keyAt.mp hik
    have hfji : keyAt chunks j ≠ keyAt chunks i := fun h =>
      hcon (samePage_iff_keyAt.mpr h)
    have hctrI := ctrF_le (keyAt chunks) i
    have hctrK := ctrF_le (keyAt chunks) k
    have hjsK : j < k - ctrF (keyAt chunks) k := by
      by_contra hle
      have hmk : k - j ≤ ctrF (keyAt chunks) k := by omega
      have hcst := ctrF_run_const (keyAt chunks) k (k - j) hmk
      have hkj : k - (k - j) = j := by omega
      rw [hkj] at hcst
      exact hfji (hcst.trans hfik.symm)
    have hIlt : i - ctrF (keyAt chunks) i < chunks.length := by omega
    have hKlt : k - ctrF (keyAt chunks) k < chunks.length := by omega
    have hfI : keyAt chunks (i - ctrF (keyAt chunks) i) = keyAt chunks i :=
      ctrF_run_const (keyAt chunks) i (ctrF (keyAt chunks) i) (le_refl _)
    have hfK : keyAt chunks (k - ctrF (keyAt chunks) k) = keyAt chunks k :=
      ctrF_run_const (keyAt chunks) k (ctrF (keyAt chunks) k) (le_refl _)
    have hzI : ctrF (keyAt chunks) (i - ctrF (keyAt chunks) i) = 0 :=
      ctrF_start_zero (keyAt chunks) i
    have hzK : ctrF (keyAt chunks) (k - ctrF (keyAt chunks) k) = 0 :=
      ctrF_start_zero (keyAt chunks) k
    have hEq : (assign_chunk_ids chunks).getD (i - ctrF (keyAt chunks) i) "" =
        (assign_chunk_ids chunks).getD (k - ctrF (keyAt chunks) k) "" := by
      rw [assign_chunk_ids_getD chunks _ hIlt,
          assign_chunk_ids_getD chunks _ hKlt, hzI, hzK, hfI, hfK, hfik]
    have hIlt2 : i - ctrF (keyAt chunks) i < (assign_chunk_ids chunks).length := by
      omega
    have hKlt2 : k - ctrF (keyAt chunks) k < (assign_chunk_ids chunks).length := by
      omega
    rw [getD_eq_get hIlt2 "", getD_eq_get hKlt2 ""] at hEq
    have hinj := List.nodup_iff_injective_get.mp hnd hEq
    have hvals : i - ctrF (keyAt chunks) i = k - ctrF (keyAt chunks) k :=
      congrArg Fin.val hinj
    omega
  · intro hcont
    rw [List.nodup_iff_injective_get]
    have main : ∀ i j, i < j → j < chunks.length →
        (assign_chunk_ids chunks).getD i "" ≠
          (assign_chunk_ids chunks).getD j "" := by
      intro i j hij hj hEq
      have hi : i < chunks.length := by omega
      rw [assign_chunk_ids_getD chunks i hi, assign_chunk_ids_getD chunks j hj]
        at hEq
      obtain ⟨hkey, hctr⟩ := key_ctr_inj.mp hEq
      have hconst : ∀ t, i ≤ t → t ≤ j → keyAt chunks t = keyAt chunks i := by
        intro t ht1 ht2
        rcases eq_or_lt_of_le ht1 with rfl | ht1'
        · rfl
        · rcases eq_or_lt_of_le ht2 with rfl | ht2'
          · exact hkey.symm
          · exact samePage_iff_keyAt.mp
              (hcont i t j ht1' ht2' hj (samePage_iff_keyAt.mpr hkey))
      have := ctrF_run_increment (keyAt chunks) i j (by omega) hconst
      omega
    intro a b hab
    rcases lt_trichotomy a.1 b.1 with h | h | h
    · exfalso
      refine main a.1 b.1 h (by omega) ?_
      rw [getD_eq_get a.2 "", getD_eq_get b.2 ""]
      simpa using hab
    · exact Fin.ext h
    · exfalso
      refine main b.1 a.1 h (by omega) ?_
      rw [getD_eq_get b.2 "", getD_eq_get a.2 ""]
      simpa using hab.symm

/-- C9: assign_chunk_ids assigns pairwise-distinct ids exactly when all
chunks sharing one (source, page) pair appear contiguously; when two chunks
with equal (source, page) are separated by a chunk with a different pair, the
within-page counter resets and two distinct chunks collide on the same id, as
the concrete three-chunk sequence shows. -/
theorem C9_distinct_ids_iff_contiguous :
    (∀ chunks : List Chunk,
      (assign_chunk_ids chunks).Nodup ↔ Contiguous chunks) ∧
    (assign_chunk_ids
        [⟨"a", 0, "first"⟩, ⟨"b", 0, "middle"⟩, ⟨"a", 0, "third"⟩] =
      ["a:0:0", "b:0:0", "a:0:0"] ∧
     (⟨"a", 0, "first"⟩ : Chunk) ≠ ⟨"a", 0, "third"⟩ ∧
     ¬ (assign_chunk_ids
        [⟨"a", 0, "first"⟩, ⟨"b", 0, "middle"⟩, ⟨"a", 0, "third"⟩]).Nodup) := by
  refine ⟨nodup_ids_iff_contiguous, by decide, by decide, by decide⟩

-- ======================================================================
-- Context assembly: C4
-- ======================================================================

theorem pyTake_length_le (s : String) (n : Nat) : (pyTake s n).length ≤ n := by
  simp only [pyTake, String.length, String.mk]
  calc (s.toList.take n).length = min n s.toList.length := List.length_take n _
    _ ≤ n := min_le_left _ _

/-- C4: build_context_block returns exactly the first min(N, len) hits
unchanged and in order (so at most N of them), renders one numbered line per
chosen hit so that bracket index i + 1 is the rendering of chosenHits i, and
every rendered chunk text is capped at MAX_CHUNK_CHARS = 1200 characters. -/
theorem C4_build_context_block_spec (hits : List Hit) (N : Nat) :
    (build_context_block hits N).2 = hits.take N ∧
    (build_context_block hits N).2.length = min N hits.length ∧
    (build_context_block hits N).2.length ≤ N ∧
    (build_context_block hits N).1 =
      String.intercalate "\n" (contextLines hits N) ∧
    (contextLines hits N).length = (build_context_block hits N).2.length ∧
    (∀ i, i < (build_context_block hits N).2.length →
      (build_context_block hits N).2.getD i defHit = hits.getD i defHit ∧
      (contextLines hits N).getD i "" =
        renderHit (i + 1) ((build_context_block hits N).2.getD i defHit)) ∧
    ∀ h : Hit, (pyTake h.text MAX_CHUNK_CHARS).length ≤ MAX_CHUNK_CHARS := by
  refine ⟨rfl, List.length_take N hits, ?_, rfl, ?_, ?_, fun h => pyTake_length_le _ _⟩
  · rw [show (build_context_block hits N).2 = hits.take N from rfl]
    rw [List.length_take]
    exact min_le_left _ _
  · simp [contextLines, build_context_block]
  · intro i hi
    have hi' : i < (hits.take N).length := hi
    have hiN : i < N := by
      rw [List.length_take] at hi'
      omega
    have hih : i < hits.length := by
      rw [List.length_take] at hi'
      omega
    constructor
    · rw [show (build_context_block hits N).2 = hits.take N from rfl]
      rw [getD_eq_get hi' defHit, getD_eq_get hih defHit]
      simp [List.getElem_take']
    · have hlin : i < (contextLines hits N).length := by
        simpa [contextLines] using hi'
      rw [getD_eq_get hlin ""]
      rw [show (build_context_block hits N).2 = hits.take N from rfl,
          getD_eq_get hi' defHit]
      simp only [contextLines, List.get_eq_getElem, List.getElem_map,
        List.getElem_enumFrom]
      rw [Nat.add_comm 1 i]

theorem C4_witness :
    0 < (build_context_block
        [{ chunk_id := "a:0:0", source := "a", page := 0, text := "hello",
           chroma_rank := some 1, bm25_rank := none, rrf_score := 1/61 }] 2).2.length ∧
    ((build_context_block
        [{ chunk_id := "a:0:0", source := "a", page := 0, text := "hello",
           chroma_rank := some 1, bm25_rank := none, rrf_score := 1/61 }] 2).2.getD 0 defHit =
      [({ chunk_id := "a:0:0", source := "a", page := 0, text := "hello",
          chroma_rank := some 1, bm25_rank := none, rrf_score := 1/61 } : Hit)].getD 0 defHit ∧
     (contextLines
        [{ chunk_id := "a:0:0", source := "a", page := 0, text := "hello",
           chroma_rank := some 1, bm25_rank := none, rrf_score := 1/61 }] 2).getD 0 "" =
      renderHit (0 + 1)
        ((build_context_block
          [{ chunk_id := "a:0:0", source := "a", page := 0, text := "hello",
             chroma_rank := some 1, bm25_rank := none, rrf_score := 1/61 }] 2).2.getD 0 defHit)) :=
  ⟨by decide,
   (C4_build_context_block_spec
      [{ chunk_id := "a:0:0", source := "a", page := 0, text := "hello",
         chroma_rank := some 1, bm25_rank := none, rrf_score := 1/61 }] 2).2.2.2.2.2.1 0
      (by decide)⟩

-- ======================================================================
-- Lemmas: the stable descending sort
-- ======================================================================

theorem mem_insertStable {leB : α → α → Bool} {x a : α} :
    ∀ {l : List α}, a ∈ insertStable leB x l ↔ a = x ∨ a ∈ l := by
  intro l
  induction l with
  | nil => simp [insertStable]
  | cons y ys ih =>
    simp only [insertStable]
    by_cases h : leB y x = true
    · rw [if_pos h]
      simp only [List.mem_cons]
    · rw [if_neg h]
      simp only [List.mem_cons, ih]
      tauto

theorem mem_sortRevStable {leB : α → α → Bool} {a : α} :
    ∀ {l : List α}, a ∈ sortRevStable leB l ↔ a ∈ l := by
  intro l
  induction l with
  | nil => simp [sortRevStable]
  | cons x xs ih =>
    simp only [sortRevStable, mem_insertStable, ih, List.mem_cons]

theorem sorted_insertStable {leB : α → α → Bool}
    (htot : ∀ a b, leB a b = false → leB b a = true)
    (htrans : ∀ a b c, leB a b = true → leB b c = true → leB a c = true)
    (x : α) : ∀ l : List α, l.Pairwise (fun a b => leB b a = true) →
    (insertStable leB x l).Pairwise (fun a b => leB b a = true) := by
  intro l
  induction l with
  | nil => intro _; simp [insertStable]
  | cons y ys ih =>
    intro hp
    rw [List.pairwise_cons] at hp
    obtain ⟨hy, hys⟩ := hp
    simp only [insertStable]
    by_cases h : leB y x = true
    · rw [if_pos h]
      rw [List.pairwise_cons]
      refine ⟨?_, List.pairwise_cons.mpr ⟨hy, hys⟩⟩
      intro b hb
      rcases List.mem_cons.mp hb with rfl | hb
      · exact h
      · exact htrans b y x (hy b hb) h
    · rw [if_neg h]
      rw [List.pairwise_cons]
      refine ⟨?_, ih hys⟩
      intro b hb
      rcases mem_insertStable.mp hb with rfl | hb
      · exact htot y b (by simpa using h)
      · exact hy b hb

theorem sorted_sortRevStable {leB : α → α → Bool}
    (htot : ∀ a b, leB a b = false → leB b a = true)
    (htrans : ∀ a b c, leB a b = true → leB b c = true → leB a c = true) :
    ∀ l : List α, (sortRevStable leB l).Pairwise (fun a b => leB b a = true) := by
  intro l
  induction l with
  | nil => simp [sortRevStable]
  | cons x xs ih => exact sorted_insertStable htot htrans x _ ih

theorem pairwise_insertStable_of {leB : α → α → Bool} {R : α → α → Prop}
    (hR : ∀ a b, ¬(leB a b = true ∧ leB b a = true) → R a b) (x : α) :
    ∀ l : List α, (∀ y ∈ l, R x y) → l.Pairwise R →
    (insertStable leB x l).Pairwise R := by
  intro l
  induction l with
  | nil => intro hx _; simp [insertStable]
  | cons y ys ih =>
    intro hx hl
    rw [List.pairwise_cons] at hl
    obtain ⟨hy, hys⟩ := hl
    simp only [insertStable]
    by_cases h : leB y x = true
    · rw [if_pos h]
      rw [List.pairwise_cons]
      exact ⟨hx, List.pairwise_cons.mpr ⟨hy, hys⟩⟩
    · rw [if_neg h]
      rw [List.pairwise_cons]
      refine ⟨?_, ih (fun z hz => hx z (List.mem_cons_of_mem y hz)) hys⟩
      intro b hb
      rcases mem_insertStable.mp hb with rfl | hb
      · exact hR y b (fun hc => h hc.1)
      · exact hy b hb

theorem pairwise_sortRevStable_of {leB : α → α → Bool} {R : α → α → Prop}
    (hR : ∀ a b, ¬(leB a b = true ∧ leB b a = true) → R a b) :
    ∀ l : List α, l.Pairwise R → (sortRevStable leB l).Pairwise R := by
  intro l
  induction l with
  | nil => intro _; simp [sortRevStable]
  | cons x xs ih =>
    intro hl
    rw [List.pairwise_cons] at hl
    obtain ⟨hx, hxs⟩ := hl
    refine pairwise_insertStable_of hR x _ ?_ (ih hxs)
    intro y hy
    exact hx y (mem_sortRevStable.mp hy)

-- ======================================================================
-- Lemmas: association-list primitives and rrf_add
-- ======================================================================

theorem mapHasKey_append (m m' : List (String × α)) (k : String) :
    mapHasKey (m ++ m') k = (mapHasKey m k || mapHasKey m' k) := by
  simp [mapHasKey, List.any_append]

theorem mapHasKey_false_iff {m : List (String × α)} {k : String} :
    mapHasKey m k = false ↔ ∀ e ∈ m, e.1 ≠ k := by
  simp [mapHasKey]

theorem mapUpdate_of_not_has {m : List (String × α)} {k : String}
    (h : mapHasKey m k = false) (f : α → α) : mapUpdate m k f = m := by
  induction m with
  | nil => rfl
  | cons e m ih =>
    have he : e.1 ≠ k := (mapHasKey_false_iff.mp h) e (List.mem_cons_self e m)
    have hm : mapHasKey m k = false := by
      rw [mapHasKey_false_iff]
      intro x hx
      exact (mapHasKey_false_iff.mp h) x (List.mem_cons_of_mem e hx)
    have ih' := ih hm
    simp only [mapUpdate, List.map_cons] at ih' ⊢
    rw [if_neg he, ih']

theorem mapUpdate_append (m m' : List (String × α)) (k : String) (f : α → α) :
    mapUpdate (m ++ m') k f = mapUpdate m k f ++ mapUpdate m' k f := by
  simp [mapUpdate]

theorem mapUpdate_singleton (k : String) (v : α) (f : α → α) :
    mapUpdate [(k, v)] k f = [(k, f v)] := by
  simp [mapUpdate]

theorem mapHasKey_mapUpdate (m : List (String × α)) (k q : String) (f : α → α) :
    mapHasKey (mapUpdate m k f) q = mapHasKey m q := by
  induction m with
  | nil => rfl
  | cons e m ih =>
    simp only [mapUpdate, List.map_cons, mapHasKey, List.any_cons] at ih ⊢
    by_cases he : e.1 = k
    · rw [if_pos he, ih]
    · rw [if_neg he, ih]

theorem rrf_add_eq (m : ScoreMap) (k : String) (r : Nat) (e : Engine)
    (meta : Meta) :
    rrf_add m k r e meta =
      mapUpdate (if mapHasKey m k then m else m ++ [(k, initHit k meta)]) k
        (engineBump e r) := by
  cases e <;> rfl

theorem rrf_add_new {m : ScoreMap} {k : String}
    (h : mapHasKey m k = false) (r : Nat) (e : Engine) (meta : Meta) :
    rrf_add m k r e meta = m ++ [(k, engineBump e r (initHit k meta))] := by
  rw [rrf_add_eq, if_neg (by simp [h]), mapUpdate_append,
      mapUpdate_of_not_has h, mapUpdate_singleton]

theorem rrf_add_present {m : ScoreMap} {k : String}
    (h : mapHasKey m k = true) (r : Nat) (e : Engine) (meta : Meta) :
    rrf_add m k r e meta = mapUpdate m k (engineBump e r) := by
  rw [rrf_add_eq, if_pos h]

theorem rrfFold_nil (e : Engine) (m : ScoreMap) : rrfFold e [] m = m := rfl

theorem rrfFold_cons (e : Engine) {p : String × Meta} (hne : p.1 ≠ "")
    (l : List (String × Meta)) (m : ScoreMap) :
    rrfFold e (p :: l) m = rrfFold e l (rrf_add m p.1 p.2.rank e p.2) := by
  simp [rrfFold, hne]

theorem lookup_none_of_not_keys {β : Type} {l : List (String × β)} {k : String}
    (h : k ∉ l.map Prod.fst) : l.lookup k = none := by
  induction l with
  | nil => rfl
  | cons p l ih =>
    simp only [List.map_cons, List.mem_cons] at h
    push_neg at h
    have hb : (k == p.1) = false := beq_eq_false_iff_ne.mpr h.1
    simp only [List.lookup, hb]
    exact ih h.2

theorem patchE_nil (e : Engine) (x : String × Hit) : patchE e [] x = x := rfl

theorem patchE_cons_eq (e : Engine) {p : String × Meta} {x : String × Hit}
    (h : x.1 = p.1) (l : List (String × Meta)) :
    patchE e (p :: l) x = (x.1, engineBump e p.2.rank x.2) := by
  simp [patchE, List.lookup, h]

theorem patchE_cons_ne (e : Engine) {p : String × Meta} {x : String × Hit}
    (h : x.1 ≠ p.1) (l : List (String × Meta)) :
    patchE e (p :: l) x = patchE e l x := by
  have hb : (x.1 == p.1) = false := beq_eq_false_iff_ne.mpr h
  simp only [patchE, List.lookup, hb]

theorem rrfFold_explicit (e : Engine) :
    ∀ (l : List (String × Meta)) (m : ScoreMap),
    (∀ p ∈ l, p.1 ≠ "") → (l.map Prod.fst).Nodup →
    rrfFold e l m =
      m.map (patchE e l) ++
        (l.filter (fun p => !(mapHasKey m p.1))).map (newEntry e) := by
  intro l
  induction l with
  | nil =>
    intro m _ _
    rw [rrfFold_nil]
    have : m.map (patchE e []) = m := by
      rw [List.map_congr_left (fun x _ => patchE_nil e x)]
      exact List.map_id m
    simp [this]
  | cons p l ih =>
    intro m hne hnd
    have hp1 : p.1 ≠ "" := hne p (List.mem_cons_self p l)
    have hne' : ∀ q ∈ l, q.1 ≠ "" := fun q hq => hne q (List.mem_cons_of_mem p hq)
    simp only [List.map_cons, List.nodup_cons] at hnd
    obtain ⟨hpnot, hnd'⟩ := hnd
    rw [rrfFold_cons e hp1]
    by_cases hk : mapHasKey m p.1 = true
    · rw [rrf_add_present hk, ih _ hne' hnd']
      have hmap : (mapUpdate m p.1 (engineBump e p.2.rank)).map (patchE e l) =
          m.map (patchE e (p :: l)) := by
        simp only [mapUpdate, List.map_map]
        refine List.map_congr_left ?_
        intro x _
        simp only [Function.comp]
        by_cases hx : x.1 = p.1
        · rw [if_pos hx, patchE_cons_eq e hx]
          have hlook : l.lookup x.1 = none :=
            lookup_none_of_not_keys (by rw [hx]; exact hpnot)
          simp [patchE, hlook]
        · rw [if_neg hx, patchE_cons_ne e hx]
      have hkeys : ∀ q ∈ l, mapHasKey (mapUpdate m p.1 (engineBump e p.2.rank)) q.1 =
          mapHasKey m q.1 := fun q _ => mapHasKey_mapUpdate m p.1 q.1 _
      have hfilter : l.filter
            (fun q => !(mapHasKey (mapUpdate m p.1 (engineBump e p.2.rank)) q.1)) =
          l.filter (fun q => !(mapHasKey m q.1)) := by
        refine List.filter_congr ?_
        intro q hq
        rw [hkeys q hq]
      rw [hmap, hfilter]
      have hfcons : (p :: l).filter (fun q => !(mapHasKey m q.1)) =
          l.filter (fun q => !(mapHasKey m q.1)) := by
        rw [List.filter_cons]
        simp [hk]
      rw [hfcons]
    · have hk' : mapHasKey m p.1 = false := by simpa using hk
      rw [rrf_add_new hk', ih _ hne' hnd']
      have hmapapp : (m ++ [(p.1, engineBump e p.2.rank (initHit p.1 p.2))]).map
            (patchE e l) =
          m.map (patchE e l) ++
            [patchE e l (p.1, engineBump e p.2.rank (initHit p.1 p.2))] := by
        simp
      have hpatchnew : patchE e l (p.1, engineBump e p.2.rank (initHit p.1 p.2)) =
          (p.1, engineBump e p.2.rank (initHit p.1 p.2)) := by
        have hlook : l.lookup p.1 = none := lookup_none_of_not_keys hpnot
        simp [patchE, hlook]
      have hmap : m.map (patchE e l) = m.map (patchE e (p :: l)) := by
        refine List.map_congr_left ?_
        intro x hx
        have hxne : x.1 ≠ p.1 := (mapHasKey_false_iff.mp hk') x hx
        rw [patchE_cons_ne e hxne]
      have hfilter : l.filter
            (fun q => !(mapHasKey
              (m ++ [(p.1, engineBump e p.2.rank (initHit p.1 p.2))]) q.1)) =
          l.filter (fun q => !(mapHasKey m q.1)) := by
        refine List.filter_congr ?_
        intro q hq
        have hqne : q.1 ≠ p.1 := by
          intro hcontra
          exact hpnot (hcontra ▸ List.mem_map_of_mem Prod.fst hq)
        rw [mapHasKey_append]
        have : mapHasKey [(p.1, engineBump e p.2.rank (initHit p.1 p.2))] q.1 =
            false := by
          simp [mapHasKey, Ne.symm hqne]
        rw [this, Bool.or_false]
      have hfcons : (p :: l).filter (fun q => !(mapHasKey m q.1)) =
          p :: l.filter (fun q => !(mapHasKey m q.1)) := by
        rw [List.filter_cons]
        simp [hk']
      rw [hmapapp, hpatchnew, hmap, hfilter, hfcons]
      simp [newEntry]

-- ======================================================================
-- Lemmas: the engine meta lists of retrieve_hybrid in closed form
-- ======================================================================

theorem chroma_meta_list_eq (env : RetEnv) (before : Option Int) :
    chroma_meta_list env before =
      (List.enumFrom 1 env.chromaResult).filterMap (chromaMetaOf env before) :=
  rfl

theorem bm25_pass1_go (env : RetEnv) (before : Option Int) :
    ∀ (l : List (Nat × BmRow)) (acc : List (String × Meta) × List String),
    l.foldl (bm25Step env before) acc =
      (acc.1 ++ l.filterMap (bm25MetaOf env before),
       acc.2 ++ l.filterMap (bm25OnlyIdOf env before)) := by
  intro l
  induction l with
  | nil => intro acc; simp
  | cons p l ih =>
    intro acc
    rw [List.foldl_cons, ih]
    by_cases hg : (p.2.chunk_id = "" ||
        !(passes_before_filter env.mtime p.2.source before)) = true
    · have hstep : bm25Step env before acc p = acc := by
        simp [bm25Step, hg]
      have hmeta : bm25MetaOf env before p = none := by
        simp [bm25MetaOf, hg]
      have honly : bm25OnlyIdOf env before p = none := by
        simp [bm25OnlyIdOf, hg]
      rw [hstep, List.filterMap_cons, hmeta, List.filterMap_cons, honly]
    · have hg' := hg
      rw [Bool.not_eq_true] at hg'
      cases hct : chromaTextById env p.2.chunk_id with
      | some full =>
        have hstep : bm25Step env before acc p =
            (acc.1 ++ [(p.2.chunk_id, { source := p.2.source, page := p.2.page,
                                        text := full, rank := p.1 })], acc.2) := by
          simp [bm25Step, hg', hct]
        have hmeta : bm25MetaOf env before p =
            some (p.2.chunk_id, { source := p.2.source, page := p.2.page,
                                  text := full, rank := p.1 }) := by
          simp [bm25MetaOf, hg', hct]
        have honly : bm25OnlyIdOf env before p = none := by
          simp [bm25OnlyIdOf, hg', hct]
        rw [hstep, List.filterMap_cons, hmeta, List.filterMap_cons, honly]
        simp
      | none =>
        have hstep : bm25Step env before acc p =
            (acc.1 ++ [(p.2.chunk_id, { source := p.2.source, page := p.2.page,
                                        text := "", rank := p.1 })],
             acc.2 ++ [p.2.chunk_id]) := by
          simp [bm25Step, hg', hct]
        have hmeta : bm25MetaOf env before p =
            some (p.2.chunk_id, { source := p.2.source, page := p.2.page,
                                  text := "", rank := p.1 }) := by
          simp [bm25MetaOf, hg', hct]
        have honly : bm25OnlyIdOf env before p = some p.2.chunk_id := by
          simp [bm25OnlyIdOf, hg', hct]
        rw [hstep, List.filterMap_cons, hmeta, List.filterMap_cons, honly]
        simp

theorem bm25_pass1_eq (env : RetEnv) (before : Option Int) :
    bm25_pass1 env before =
      ((List.enumFrom 1 env.bm25Result).filterMap (bm25MetaOf env before),
       (List.enumFrom 1 env.bm25Result).filterMap (bm25OnlyIdOf env before)) := by
  rw [bm25_pass1, bm25_pass1_go]
  simp

theorem fillOne_fst (env : RetEnv) (ids : List String) (pm : String × Meta) :
    (fillOne env ids pm).1 = pm.1 := by
  unfold fillOne
  split <;> rfl

theorem fillOne_meta (env : RetEnv) (ids : List String) (pm : String × Meta) :
    (fillOne env ids pm).2.source = pm.2.source ∧
    (fillOne env ids pm).2.page = pm.2.page ∧
    (fillOne env ids pm).2.rank = pm.2.rank := by
  unfold fillOne
  split <;> exact ⟨rfl, rfl, rfl⟩

theorem fillOne_id_of_text_ne (env : RetEnv) (ids : List String)
    {pm : String × Meta} (h : pm.2.text ≠ "") : fillOne env ids pm = pm := by
  unfold fillOne
  rw [if_neg h]

theorem fillOne_nilIds (env : RetEnv) (pm : String × Meta) :
    fillOne env [] pm = pm := by
  unfold fillOne
  split
  · rename_i h
    obtain ⟨k, mt⟩ := pm
    obtain ⟨src, pg, tx, rk⟩ := mt
    simp only at h
    subst h
    rfl
  · rfl

theorem bm25MetaListFilled_eq (env : RetEnv) (before : Option Int) :
    bm25MetaListFilled env before =
      (bm25_pass1 env before).1.map (fillOne env (bm25_pass1 env before).2) := by
  unfold bm25MetaListFilled
  by_cases h : (bm25_pass1 env before).2.isEmpty = true
  · rw [if_pos h]
    have hnil : (bm25_pass1 env before).2 = [] := by
      rwa [List.isEmpty_iff] at h
    rw [hnil]
    symm
    rw [List.map_congr_left (fun pm _ => fillOne_nilIds env pm)]
    exact List.map_id _
  · rw [if_neg h]

theorem retrieve_hybrid_eq (env : RetEnv) (before : Option Int) :
    retrieve_hybrid env before =
      sortRevStable hitLe
        ((rrfFold Engine.bm25 (bm25MetaListFilled env before)
          (rrfFold Engine.chroma (chroma_meta_list env before) [])).map
            Prod.snd) :=
  rfl

theorem chromaMetaOf_some {env : RetEnv} {before : Option Int}
    {x : Nat × ChromaDoc} {e : String × Meta}
    (h : chromaMetaOf env before x = some e) :
    x.2.id ≠ "" ∧ passes_before_filter env.mtime x.2.source before = true ∧
    e.1 = x.2.id ∧ e.2.source = x.2.source ∧ e.2.page = x.2.page ∧
    e.2.text = x.2.content ∧ e.2.rank = x.1 := by
  unfold chromaMetaOf at h
  split at h
  · exact absurd h (by simp)
  · rename_i hcond
    have h1 : x.2.id ≠ "" := by
      intro hid
      exact hcond (by simp [hid])
    have h2 : passes_before_filter env.mtime x.2.source before = true := by
      cases hb : passes_before_filter env.mtime x.2.source before
      · exact absurd (by simp [hb]) hcond
      · rfl
    obtain rfl := Option.some.inj h
    exact ⟨h1, h2, rfl, rfl, rfl, rfl, rfl⟩

theorem bm25MetaOf_some {env : RetEnv} {before : Option Int}
    {x : Nat × BmRow} {e : String × Meta}
    (h : bm25MetaOf env before x = some e) :
    x.2.chunk_id ≠ "" ∧ passes_before_filter env.mtime x.2.source before = true ∧
    e.1 = x.2.chunk_id ∧ e.2.source = x.2.source ∧ e.2.page = x.2.page ∧
    e.2.text = (chromaTextById env x.2.chunk_id).getD "" ∧ e.2.rank = x.1 := by
  unfold bm25MetaOf at h
  split at h
  · exact absurd h (by simp)
  · rename_i hcond
    have h1 : x.2.chunk_id ≠ "" := by
      intro hid
      exact hcond (by simp [hid])
    have h2 : passes_before_filter env.mtime x.2.source before = true := by
      cases hb : passes_before_filter env.mtime x.2.source before
      · exact absurd (by simp [hb]) hcond
      · rfl
    obtain rfl := Option.some.inj h
    exact ⟨h1, h2, rfl, rfl, rfl, rfl, rfl⟩

theorem chroma_keys_sublist (env : RetEnv) (before : Option Int) :
    ∀ (docs : List ChromaDoc) (n : Nat),
    List.Sublist
      (((List.enumFrom n docs).filterMap (chromaMetaOf env before)).map Prod.fst)
      (docs.map ChromaDoc.id) := by
  intro docs
  induction docs with
  | nil => intro n; simp
  | cons d ds ih =>
    intro n
    rw [List.enumFrom_cons, List.filterMap_cons]
    cases hm : chromaMetaOf env before (n, d) with
    | none =>
      exact List.Sublist.cons d.id (ih (n + 1))
    | some e =>
      rw [List.map_cons, List.map_cons]
      have he1 : e.1 = d.id := (chromaMetaOf_some hm).2.2.1
      rw [he1]
      exact List.Sublist.cons₂ d.id (ih (n + 1))

theorem bm25_keys_sublist (env : RetEnv) (before : Option Int) :
    ∀ (rows : List BmRow) (n : Nat),
    List.Sublist
      (((List.enumFrom n rows).filterMap (bm25MetaOf env before)).map Prod.fst)
      (rows.map BmRow.chunk_id) := by
  intro rows
  induction rows with
  | nil => intro n; simp
  | cons r rs ih =>
    intro n
    rw [List.enumFrom_cons, List.filterMap_cons]
    cases hm : bm25MetaOf env before (n, r) with
    | none =>
      exact List.Sublist.cons r.chunk_id (ih (n + 1))
    | some e =>
      rw [List.map_cons, List.map_cons]
      have he1 : e.1 = r.chunk_id := (bm25MetaOf_some hm).2.2.1
      rw [he1]
      exact List.Sublist.cons₂ r.chunk_id (ih (n + 1))

theorem bm25Filled_keys (env : RetEnv) (before : Option Int) :
    (bm25MetaListFilled env before).map Prod.fst =
      (bm25_pass1 env before).1.map Prod.fst := by
  rw [bm25MetaListFilled_eq, List.map_map]
  exact List.map_congr_left (fun pm _ => fillOne_fst env _ pm)

theorem cML_keys_nodup (env : RetEnv) (before : Option Int)
    (h : (env.chromaResult.map ChromaDoc.id).Nodup) :
    ((chroma_meta_list env before).map Prod.fst).Nodup := by
  rw [chroma_meta_list_eq]
  exact List.Nodup.sublist (chroma_keys_sublist env before env.chromaResult 1) h

theorem bML_keys_nodup (env : RetEnv) (before : Option Int)
    (h : (env.bm25Result.map BmRow.chunk_id).Nodup) :
    ((bm25MetaListFilled env before).map Prod.fst).Nodup := by
  rw [bm25Filled_keys, bm25_pass1_eq]
  exact List.Nodup.sublist (bm25_keys_sublist env before env.bm25Result 1) h

theorem cML_keys_ne (env : RetEnv) (before : Option Int) :
    ∀ p ∈ chroma_meta_list env before, p.1 ≠ "" := by
  intro p hp
  rw [chroma_meta_list_eq] at hp
  obtain ⟨x, _, hx⟩ := List.mem_filterMap.mp hp
  have := chromaMetaOf_some hx
  rw [this.2.2.1]
  exact this.1

theorem bML_keys_ne (env : RetEnv) (before : Option Int) :
    ∀ p ∈ bm25MetaListFilled env before, p.1 ≠ "" := by
  intro p hp
  rw [bm25MetaListFilled_eq] at hp
  obtain ⟨q, hq, hfill⟩ := List.mem_map.mp hp
  rw [bm25_pass1_eq] at hq
  obtain ⟨x, _, hx⟩ := List.mem_filterMap.mp hq
  have hs := bm25MetaOf_some hx
  rw [← hfill, fillOne_fst, hs.2.2.1]
  exact hs.1

theorem mapHasKey_map_newEntry (e : Engine) (l : List (String × Meta))
    (q : String) : mapHasKey (l.map (newEntry e)) q = mapHasKey l q := by
  induction l with
  | nil => rfl
  | cons p l ih =>
    simp only [List.map_cons, mapHasKey, List.any_cons] at ih ⊢
    rw [ih]
    rfl

theorem fused1_eq (env : RetEnv) (before : Option Int)
    (hcnd : ((chroma_meta_list env before).map Prod.fst).Nodup) :
    rrfFold Engine.chroma (chroma_meta_list env before) [] =
      (chroma_meta_list env before).map (newEntry Engine.chroma) := by
  rw [rrfFold_explicit Engine.chroma _ [] (cML_keys_ne env before) hcnd]
  have hfilter : (chroma_meta_list env before).filter
      (fun p => !(mapHasKey ([] : ScoreMap) p.1)) = chroma_meta_list env before := by
    refine List.filter_eq_self.mpr ?_
    intro p _
    rfl
  rw [hfilter]
  simp

theorem fused2_explicit (env : RetEnv) (before : Option Int)
    (hcnd : ((chroma_meta_list env before).map Prod.fst).Nodup)
    (hbnd : ((bm25MetaListFilled env before).map Prod.fst).Nodup) :
    rrfFold Engine.bm25 (bm25MetaListFilled env before)
        (rrfFold Engine.chroma (chroma_meta_list env before) []) =
      (chroma_meta_list env before).map (fun p =>
        patchE Engine.bm25 (bm25MetaListFilled env before)
          (newEntry Engine.chroma p)) ++
      ((bm25MetaListFilled env before).filter (fun p =>
        !(mapHasKey (chroma_meta_list env before) p.1))).map
          (newEntry Engine.bm25) := by
  rw [fused1_eq env before hcnd,
      rrfFold_explicit Engine.bm25 _ _ (bML_keys_ne env before) hbnd,
      List.map_map]
  congr 1
  refine congrArg (List.map (newEntry Engine.bm25)) ?_
  refine List.filter_congr ?_
  intro p _
  rw [mapHasKey_map_newEntry]

-- ======================================================================
-- Temporal filter: C3
-- ======================================================================

theorem engineBump_source (e : Engine) (r : Nat) (h : Hit) :
    (engineBump e r h).source = h.source := by
  cases e <;> rfl

theorem rrf_add_preserves {P : String → Prop} {m : ScoreMap} {k : String}
    {r : Nat} {e : Engine} {meta : Meta}
    (hm : ∀ x ∈ m, P x.2.source) (hmeta : P meta.source) :
    ∀ x ∈ rrf_add m k r e meta, P x.2.source := by
  intro x hx
  rw [rrf_add_eq] at hx
  by_cases hhas : mapHasKey m k = true
  · rw [if_pos hhas] at hx
    simp only [mapUpdate] at hx
    obtain ⟨y, hy, hxy⟩ := List.mem_map.mp hx
    have hsrc : x.2.source = y.2.source := by
      by_cases hk : y.1 = k
      · rw [← hxy, if_pos hk]
        exact engineBump_source e r y.2
      · rw [← hxy, if_neg hk]
    rw [hsrc]
    exact hm y hy
  · rw [if_neg hhas] at hx
    simp only [mapUpdate] at hx
    obtain ⟨y, hy, hxy⟩ := List.mem_map.mp hx
    have hsrc : x.2.source = y.2.source := by
      by_cases hk : y.1 = k
      · rw [← hxy, if_pos hk]
        exact engineBump_source e r y.2
      · rw [← hxy, if_neg hk]
    rw [hsrc]
    rcases List.mem_append.mp hy with hy' | hy'
    · exact hm y hy'
    · have : y = (k, initHit k meta) := by simpa using hy'
      rw [this]
      exact hmeta

theorem rrfFold_preserves {P : String → Prop} (e : Engine) :
    ∀ (l : List (String × Meta)) (m : ScoreMap),
    (∀ p ∈ l, P p.2.source) → (∀ x ∈ m, P x.2.source) →
    ∀ x ∈ rrfFold e l m, P x.2.source := by
  intro l
  induction l with
  | nil => intro m _ hm; exact hm
  | cons p l ih =>
    intro m hl hm
    have hstep : rrfFold e (p :: l) m =
        rrfFold e l (if p.1 = "" then m else rrf_add m p.1 p.2.rank e p.2) := rfl
    rw [hstep]
    refine ih _ (fun q hq => hl q (List.mem_cons_of_mem p hq)) ?_
    by_cases hp : p.1 = ""
    · rw [if_pos hp]
      exact hm
    · rw [if_neg hp]
      exact rrf_add_preserves hm (hl p (List.mem_cons_self p l))

theorem cML_passes (env : RetEnv) (before : Option Int) :
    ∀ p ∈ chroma_meta_list env before,
      passes_before_filter env.mtime p.2.source before = true := by
  intro p hp
  rw [chroma_meta_list_eq] at hp
  obtain ⟨x, _, hx⟩ := List.mem_filterMap.mp hp
  have hs := chromaMetaOf_some hx
  rw [hs.2.2.2.1]
  exact hs.2.1

theorem bML_passes (env : RetEnv) (before : Option Int) :
    ∀ p ∈ bm25MetaListFilled env before,
      passes_before_filter env.mtime p.2.source before = true := by
  intro p hp
  rw [bm25MetaListFilled_eq] at hp
  obtain ⟨q, hq, hfill⟩ := List.mem_map.mp hp
  rw [bm25_pass1_eq] at hq
  obtain ⟨x, _, hx⟩ := List.mem_filterMap.mp hq
  have hs := bm25MetaOf_some hx
  rw [← hfill, (fillOne_meta env _ q).1, hs.2.2.2.1]
  exact hs.2.1

theorem retrieve_hybrid_passes (env : RetEnv) (before : Option Int) :
    ∀ h ∈ retrieve_hybrid env before,
      passes_before_filter env.mtime h.source before = true := by
  intro h hmem
  rw [retrieve_hybrid_eq] at hmem
  have hvals := mem_sortRevStable.mp hmem
  obtain ⟨x, hx, hxh⟩ := List.mem_map.mp hvals
  have := rrfFold_preserves
    (P := fun s => passes_before_filter env.mtime s before = true)
    Engine.bm25 (bm25MetaListFilled env before)
    (rrfFold Engine.chroma (chroma_meta_list env before) [])
    (bML_passes env before)
    (rrfFold_preserves
      (P := fun s => passes_before_filter env.mtime s before = true)
      Engine.chroma (chroma_meta_list env before) []
      (cML_passes env before) (by intro x hx; simp at hx))
    x hx
  rw [← hxh]
  exact this

/-- C3: with a cutoff D every returned hit has a known modification time
strictly earlier than D (absent mtimes are excluded, failing closed), and
with no cutoff the temporal filter passes every path. -/
theorem C3_temporal_filter (env : RetEnv) (D : Int) :
    (∀ h ∈ retrieve_hybrid env (some D),
      ∃ t, env.mtime h.source = some t ∧ t < D) ∧
    (∀ path, passes_before_filter env.mtime path none = true) := by
  constructor
  · intro h hmem
    have hp := retrieve_hybrid_passes env (some D) h hmem
    unfold passes_before_filter file_mtime at hp
    cases hmt : env.mtime h.source with
    | none => rw [hmt] at hp; exact absurd hp (by simp)
    | some t =>
      rw [hmt] at hp
      refine ⟨t, rfl, ?_⟩
      simpa using hp
  · intro path
    rfl

theorem C3_retrieve_envC3 : retrieve_hybrid envC3 (some 10) = [hitC3] := rfl

theorem C3_witness :
    (hitC3 ∈ retrieve_hybrid envC3 (some 10)) ∧
    (∃ t, envC3.mtime hitC3.source = some t ∧ t < 10) :=
  ⟨by rw [C3_retrieve_envC3]; exact List.mem_singleton.mpr rfl,
   (C3_temporal_filter envC3 10).1 hitC3
     (by rw [C3_retrieve_envC3]; exact List.mem_singleton.mpr rfl)⟩

-- ======================================================================
-- Lemmas: positions, enumFrom and lookups
-- ======================================================================

theorem posOf1_eq_none_iff {k : String} : ∀ {l : List String},
    posOf1 k l = none ↔ k ∉ l := by
  intro l
  induction l with
  | nil => simp [posOf1]
  | cons s rest ih =>
    simp only [posOf1, List.mem_cons]
    by_cases h : s = k
    · simp [h]
    · simp only [if_neg h, Option.map_eq_none', ih]
      constructor
      · intro hn hk
        rcases hk with rfl | hk2
        · exact h rfl
        · exact hn hk2
      · intro hn hk
        exact hn (Or.inr hk)

theorem posOf1_get_nodup : ∀ {l : List String}, l.Nodup →
    ∀ j (hj : j < l.length) {k : String}, l.get ⟨j, hj⟩ = k →
    posOf1 k l = some (j + 1) := by
  intro l
  induction l with
  | nil => intro _ j hj; exact absurd hj (by simp)
  | cons s rest ih =>
    intro hnd j hj k hk
    rw [List.nodup_cons] at hnd
    cases j with
    | zero =>
      simp only [List.get] at hk
      simp [posOf1, hk]
    | succ j =>
      have hj' : j < rest.length := by simpa using hj
      simp only [List.get] at hk
      have hne : s ≠ k := by
        intro rfl_h
        exact hnd.1 (rfl_h ▸ (hk ▸ List.get_mem rest j hj'))
      simp only [posOf1, if_neg hne, ih hnd.2 j hj' hk]
      rfl

theorem mem_enumFrom_iff : ∀ {l : List α} {n : Nat} {p : Nat × α},
    p ∈ List.enumFrom n l ↔ ∃ j, ∃ hj : j < l.length, p = (n + j, l.get ⟨j, hj⟩) := by
  intro l
  induction l with
  | nil => simp
  | cons x xs ih =>
    intro n p
    rw [List.enumFrom_cons, List.mem_cons]
    constructor
    · intro h
      rcases h with rfl | h
      · refine ⟨0, ?_, ?_⟩
        · simp
        · simp
      · obtain ⟨j, hj, rfl⟩ := ih.mp h
        refine ⟨j + 1, ?_, ?_⟩
        · simpa using hj
        · simp only [List.get]
          congr 1
          omega
    · rintro ⟨j, hj, rfl⟩
      cases j with
      | zero => left; simp
      | succ j =>
        right
        have hj' : j < xs.length := by simpa using hj
        have heq : ((n + (j + 1), (x :: xs).get ⟨j + 1, hj⟩) : Nat × α) =
            (n + 1 + j, xs.get ⟨j, hj'⟩) := by
          simp only [List.get]
          congr 1
          omega
        rw [heq]
        exact ih.mpr ⟨j, hj', rfl⟩

theorem snd_mem_of_mem_enumFrom {l : List α} {n : Nat} {p : Nat × α}
    (h : p ∈ List.enumFrom n l) : p.2 ∈ l := by
  obtain ⟨j, hj, rfl⟩ := mem_enumFrom_iff.mp h
  exact List.get_mem l j hj

theorem filterMap_eq_map_of {f : α → Option β} {g : α → β} :
    ∀ {l : List α}, (∀ x ∈ l, f x = some (g x)) → l.filterMap f = l.map g := by
  intro l
  induction l with
  | nil => intro _; rfl
  | cons x xs ih =>
    intro hf
    rw [List.filterMap_cons, hf x (List.mem_cons_self x xs), List.map_cons,
        ih (fun y hy => hf y (List.mem_cons_of_mem x hy))]

theorem lookup_of_mem_nodup : ∀ {l : List (String × Meta)},
    (l.map Prod.fst).Nodup → ∀ {e : String × Meta}, e ∈ l →
    l.lookup e.1 = some e.2 := by
  intro l
  induction l with
  | nil => intro _ e he; exact absurd he (by simp)
  | cons p rest ih =>
    intro hnd e he
    rw [List.map_cons, List.nodup_cons] at hnd
    rcases List.mem_cons.mp he with rfl | he'
    · simp [List.lookup]
    · have hne : e.1 ≠ p.1 := by
        intro hk
        exact hnd.1 (hk ▸ List.mem_map_of_mem Prod.fst he')
      have hb : (e.1 == p.1) = false := beq_eq_false_iff_ne.mpr hne
      simp only [List.lookup, hb]
      exact ih hnd.2 he'

-- ======================================================================
-- Lemmas: closed forms with no cutoff
-- ======================================================================

theorem cML_none_eq (env : RetEnv)
    (hcid : ∀ d ∈ env.chromaResult, d.id ≠ "") :
    chroma_meta_list env none =
      (List.enumFrom 1 env.chromaResult).map (fun p =>
        (p.2.id, ({ source := p.2.source, page := p.2.page,
                    text := p.2.content, rank := p.1 } : Meta))) := by
  rw [chroma_meta_list_eq]
  refine filterMap_eq_map_of ?_
  intro x hx
  have hid : x.2.id ≠ "" := hcid x.2 (snd_mem_of_mem_enumFrom hx)
  simp [chromaMetaOf, hid, passes_before_filter]

theorem pass1_none_eq (env : RetEnv)
    (hbid : ∀ r ∈ env.bm25Result, r.chunk_id ≠ "") :
    (bm25_pass1 env none).1 =
      (List.enumFrom 1 env.bm25Result).map (fun p =>
        (p.2.chunk_id, ({ source := p.2.source, page := p.2.page,
                          text := (chromaTextById env p.2.chunk_id).getD "",
                          rank := p.1 } : Meta))) := by
  rw [bm25_pass1_eq]
  refine filterMap_eq_map_of ?_
  intro x hx
  have hid : x.2.chunk_id ≠ "" := hbid x.2 (snd_mem_of_mem_enumFrom hx)
  simp [bm25MetaOf, hid, passes_before_filter]

theorem enumFrom_map_snd (g : α → β) :
    ∀ (l : List α) (n : Nat),
    (List.enumFrom n l).map (fun p => g p.2) = l.map g := by
  intro l
  induction l with
  | nil => intro n; rfl
  | cons x xs ih =>
    intro n
    rw [List.enumFrom_cons, List.map_cons, List.map_cons, ih]

theorem keys_cML_none (env : RetEnv)
    (hcid : ∀ d ∈ env.chromaResult, d.id ≠ "") :
    (chroma_meta_list env none).map Prod.fst =
      env.chromaResult.map ChromaDoc.id := by
  rw [cML_none_eq env hcid, List.map_map]
  exact enumFrom_map_snd ChromaDoc.id env.chromaResult 1

theorem mapHasKey_mem_iff {m : List (String × α)} {k : String} :
    mapHasKey m k = true ↔ k ∈ m.map Prod.fst := by
  simp only [mapHasKey, List.any_eq_true, List.mem_map, decide_eq_true_eq]

theorem lookup_map_fillOne (env : RetEnv) (ids : List String) :
    ∀ (l : List (String × Meta)) (k : String),
    Option.map Meta.rank ((l.map (fillOne env ids)).lookup k) =
      Option.map Meta.rank (l.lookup k) := by
  intro l k
  induction l with
  | nil => rfl
  | cons p rest ih =>
    by_cases ht : p.2.text = ""
    · have hf : fillOne env ids p = (p.1, { p.2 with
          text := if ids.contains p.1 then (env.ftsText p.1).getD "" else "" }) := by
        unfold fillOne
        rw [if_pos ht]
      rw [List.map_cons, hf]
      simp only [List.lookup]
      cases hb : (k == p.1) with
      | false => simp only [hb]; exact ih
      | true => simp only [hb, Option.map_some]; rfl
    · have hf : fillOne env ids p = p := fillOne_id_of_text_ne env ids ht
      rw [List.map_cons, hf]
      simp only [List.lookup]
      cases hb : (k == p.1) with
      | false => simp only [hb]; exact ih
      | true => simp only [hb]

theorem lookup_bMap_posOf1 (env : RetEnv) :
    ∀ (rows : List BmRow) (n : Nat) (k : String),
    Option.map Meta.rank
      (((List.enumFrom n rows).map (fun p =>
        (p.2.chunk_id, ({ source := p.2.source, page := p.2.page,
                          text := (chromaTextById env p.2.chunk_id).getD "",
                          rank := p.1 } : Meta)))).lookup k) =
      Option.map (fun i => n + i - 1) (posOf1 k (rows.map BmRow.chunk_id)) := by
  intro rows
  induction rows with
  | nil => intro n k; rfl
  | cons r rs ih =>
    intro n k
    rw [List.enumFrom_cons]
    simp only [List.map_cons, List.lookup]
    by_cases he : r.chunk_id = k
    · have hb : (k == r.chunk_id) = true := beq_iff_eq.mpr he.symm
      simp only [hb, posOf1, if_pos he, Option.map_some]
      rfl
    · have hb : (k == r.chunk_id) = false :=
        beq_eq_false_iff_ne.mpr (fun hck => he hck.symm)
      simp only [hb, posOf1, if_neg he]
      rw [ih (n + 1) k]
      cases posOf1 k (rs.map BmRow.chunk_id) with
      | none => rfl
      | some i =>
        simp only [Option.map_some', Option.some.injEq]
        omega

theorem bML_lookup_rank_none (env : RetEnv)
    (hbid : ∀ r ∈ env.bm25Result, r.chunk_id ≠ "") (k : String) :
    Option.map Meta.rank ((bm25MetaListFilled env none).lookup k) =
      posOf1 k (env.bm25Result.map BmRow.chunk_id) := by
  rw [bm25MetaListFilled_eq, lookup_map_fillOne, pass1_none_eq env hbid,
      lookup_bMap_posOf1 env env.bm25Result 1 k]
  cases posOf1 k (env.bm25Result.map BmRow.chunk_id) with
  | none => rfl
  | some i =>
    simp only [Option.map_some', Option.some.injEq]
    omega

-- ======================================================================
-- Lemmas: fused entry shapes
-- ======================================================================

theorem newEntry_chroma_snd (p : String × Meta) :
    (newEntry Engine.chroma p).2 =
      { chunk_id := p.1, source := p.2.source, page := p.2.page,
        text := p.2.text, chroma_rank := some p.2.rank, bm25_rank := none,
        rrf_score := 0 + 1 / (RRF_K + p.2.rank) } := rfl

theorem newEntry_bm25_snd (p : String × Meta) :
    (newEntry Engine.bm25 p).2 =
      { chunk_id := p.1, source := p.2.source, page := p.2.page,
        text := p.2.text, chroma_rank := none, bm25_rank := some p.2.rank,
        rrf_score := 0 + 1 / (RRF_K + p.2.rank) } := rfl

theorem engineBump_bm25_eq (r : Nat) (h : Hit) :
    engineBump Engine.bm25 r h =
      { h with rrf_score := h.rrf_score + 1 / (RRF_K + r),
               bm25_rank := some r } := rfl

theorem patchE_lookup_none {l : List (String × Meta)} {e : String × Hit}
    (eng : Engine) (hlk : l.lookup e.1 = none) : patchE eng l e = e := by
  simp [patchE, hlk]

theorem patchE_lookup_some {l : List (String × Meta)} {e : String × Hit}
    {mt : Meta} (eng : Engine) (hlk : l.lookup e.1 = some mt) :
    patchE eng l e = (e.1, engineBump eng mt.rank e.2) := by
  simp [patchE, hlk]

theorem mem_retrieve_cases (env : RetEnv) (before : Option Int)
    (hcnd' : ((chroma_meta_list env before).map Prod.fst).Nodup)
    (hbnd' : ((bm25MetaListFilled env before).map Prod.fst).Nodup)
    {h : Hit} (hmem : h ∈ retrieve_hybrid env before) :
    (∃ p ∈ chroma_meta_list env before,
      h = (patchE Engine.bm25 (bm25MetaListFilled env before)
            (newEntry Engine.chroma p)).2) ∨
    (∃ p ∈ bm25MetaListFilled env before,
      mapHasKey (chroma_meta_list env before) p.1 = false ∧
      h = (newEntry Engine.bm25 p).2) := by
  rw [retrieve_hybrid_eq, fused2_explicit env before hcnd' hbnd'] at hmem
  have hmem' := mem_sortRevStable.mp hmem
  rw [List.map_append] at hmem'
  rcases List.mem_append.mp hmem' with hA | hB
  · left
    rw [List.map_map] at hA
    obtain ⟨p, hp, rfl⟩ := List.mem_map.mp hA
    exact ⟨p, hp, rfl⟩
  · right
    rw [List.map_map] at hB
    obtain ⟨p, hp, rfl⟩ := List.mem_map.mp hB
    rw [List.mem_filter] at hp
    refine ⟨p, hp.1, ?_, rfl⟩
    simpa using hp.2

theorem cML_none_mem {env : RetEnv}
    (hcid : ∀ d ∈ env.chromaResult, d.id ≠ "") {p : String × Meta}
    (hp : p ∈ chroma_meta_list env none) :
    ∃ j, ∃ hj : j < env.chromaResult.length,
      p.1 = (env.chromaResult.get ⟨j, hj⟩).id ∧
      p.2.source = (env.chromaResult.get ⟨j, hj⟩).source ∧
      p.2.page = (env.chromaResult.get ⟨j, hj⟩).page ∧
      p.2.text = (env.chromaResult.get ⟨j, hj⟩).content ∧
      p.2.rank = j + 1 := by
  rw [cML_none_eq env hcid] at hp
  obtain ⟨x, hx, hpx⟩ := List.mem_map.mp hp
  obtain ⟨j, hj, rfl⟩ := mem_enumFrom_iff.mp hx
  refine ⟨j, hj, ?_⟩
  rw [← hpx]
  refine ⟨rfl, rfl, rfl, rfl, ?_⟩
  show 1 + j = j + 1
  omega

theorem bML_none_mem {env : RetEnv}
    (hbid : ∀ r ∈ env.bm25Result, r.chunk_id ≠ "") {p : String × Meta}
    (hp : p ∈ bm25MetaListFilled env none) :
    ∃ j, ∃ hj : j < env.bm25Result.length,
      p.1 = (env.bm25Result.get ⟨j, hj⟩).chunk_id ∧
      p.2.source = (env.bm25Result.get ⟨j, hj⟩).source ∧
      p.2.page = (env.bm25Result.get ⟨j, hj⟩).page ∧
      p.2.rank = j + 1 := by
  rw [bm25MetaListFilled_eq] at hp
  obtain ⟨q, hq, hfill⟩ := List.mem_map.mp hp
  rw [pass1_none_eq env hbid] at hq
  obtain ⟨x, hx, hqx⟩ := List.mem_map.mp hq
  obtain ⟨j, hj, rfl⟩ := mem_enumFrom_iff.mp hx
  refine ⟨j, hj, ?_⟩
  have hmeta := fillOne_meta env (bm25_pass1 env none).2 q
  rw [← hfill, fillOne_fst, hmeta.1, hmeta.2.1, hmeta.2.2, ← hqx]
  refine ⟨rfl, rfl, rfl, ?_⟩
  show 1 + j = j + 1
  omega

theorem posOf1_map_get {l : List α} {f : α → String} (hnd : (l.map f).Nodup)
    {j : Nat} (hj : j < l.length) :
    posOf1 (f (l.get ⟨j, hj⟩)) (l.map f) = some (j + 1) := by
  refine posOf1_get_nodup hnd j (by simpa) ?_
  simp [List.get_eq_getElem, List.getElem_map]

/-- C1: each returned chunk carries as fused score exactly the sum, over the
engines that returned it, of one over sixty plus its 1-based position in that
engine raw result list; a chunk returned by both engines scores the sum of
both reciprocal contributions, strictly above either single contribution. -/
theorem C1_rrf_score_sum (env : RetEnv)
    (hcid : ∀ d ∈ env.chromaResult, d.id ≠ "")
    (hbid : ∀ r ∈ env.bm25Result, r.chunk_id ≠ "")
    (hcnd : (env.chromaResult.map ChromaDoc.id).Nodup)
    (hbnd : (env.bm25Result.map BmRow.chunk_id).Nodup) :
    ∀ h ∈ retrieve_hybrid env none,
      (h.rrf_score =
        rrfContrib (posOf1 h.chunk_id (env.chromaResult.map ChromaDoc.id)) +
        rrfContrib (posOf1 h.chunk_id (env.bm25Result.map BmRow.chunk_id))) ∧
      (∀ rc rb,
        posOf1 h.chunk_id (env.chromaResult.map ChromaDoc.id) = some rc →
        posOf1 h.chunk_id (env.bm25Result.map BmRow.chunk_id) = some rb →
        h.rrf_score = 1 / (RRF_K + rc) + 1 / (RRF_K + rb) ∧
        1 / (RRF_K + (rc : ℚ)) < h.rrf_score ∧
        1 / (RRF_K + (rb : ℚ)) < h.rrf_score) := by
  intro h hmem
  have hmain : h.rrf_score =
      rrfContrib (posOf1 h.chunk_id (env.chromaResult.map ChromaDoc.id)) +
      rrfContrib (posOf1 h.chunk_id (env.bm25Result.map BmRow.chunk_id)) := by
    rcases mem_retrieve_cases env none (cML_keys_nodup env none hcnd)
        (bML_keys_nodup env none hbnd) hmem with ⟨p, hp, rfl⟩ | ⟨p, hp, hnk, rfl⟩
    · obtain ⟨j, hj, hid, _, _, _, hrank⟩ := cML_none_mem hcid hp
      have hposC : posOf1 p.1 (env.chromaResult.map ChromaDoc.id) =
          some (j + 1) := by
        rw [hid]
        exact posOf1_map_get hcnd hj
      cases hlk : (bm25MetaListFilled env none).lookup p.1 with
      | none =>
        have hpe : patchE Engine.bm25 (bm25MetaListFilled env none)
            (newEntry Engine.chroma p) = newEntry Engine.chroma p :=
          patchE_lookup_none Engine.bm25 hlk
        have hposB : posOf1 p.1 (env.bm25Result.map BmRow.chunk_id) = none := by
          have hb := bML_lookup_rank_none env hbid p.1
          rw [hlk] at hb
          exact hb.symm
        rw [hpe, newEntry_chroma_snd]
        simp only [hposC, hposB, rrfContrib, hrank]
        norm_num
      | some mt =>
        have hpe : patchE Engine.bm25 (bm25MetaListFilled env none)
            (newEntry Engine.chroma p) =
            ((newEntry Engine.chroma p).1,
              engineBump Engine.bm25 mt.rank (newEntry Engine.chroma p).2) :=
          patchE_lookup_some Engine.bm25 hlk
        have hposB : posOf1 p.1 (env.bm25Result.map BmRow.chunk_id) =
            some mt.rank := by
          have hb := bML_lookup_rank_none env hbid p.1
          rw [hlk] at hb
          exact hb.symm
        rw [hpe]
        simp only [engineBump_bm25_eq, newEntry_chroma_snd]
        simp only [hposC, hposB, rrfContrib, hrank]
        norm_num
    · obtain ⟨j, hj, hid, _, _, hrank⟩ := bML_none_mem hbid hp
      have hposB : posOf1 p.1 (env.bm25Result.map BmRow.chunk_id) =
          some p.2.rank := by
        have hb := bML_lookup_rank_none env hbid p.1
        rw [lookup_of_mem_nodup (bML_keys_nodup env none hbnd) hp] at hb
        exact hb.symm
      have hposC : posOf1 p.1 (env.chromaResult.map ChromaDoc.id) = none := by
        rw [posOf1_eq_none_iff]
        intro hin
        rw [← keys_cML_none env hcid] at hin
        rw [← mapHasKey_mem_iff] at hin
        rw [hnk] at hin
        exact Bool.false_ne_true hin
      rw [newEntry_bm25_snd]
      simp only [hposC, hposB, rrfContrib]
  refine ⟨hmain, ?_⟩
  intro rc rb hrc hrb
  rw [hrc, hrb] at hmain
  simp only [rrfContrib] at hmain
  have hpc : (0 : ℚ) < 1 / (RRF_K + rc) := by
    rw [RRF_K]
    positivity
  have hpb : (0 : ℚ) < 1 / (RRF_K + rb) := by
    rw [RRF_K]
    positivity
  refine ⟨hmain, ?_, ?_⟩
  · rw [hmain]
    linarith
  · rw [hmain]
    linarith

theorem C1_retrieve_envC1 : retrieve_hybrid envC1 none = [hitC1] := rfl

theorem C1_witness :
    (hitC1 ∈ retrieve_hybrid envC1 none) ∧
    (hitC1.rrf_score =
      rrfContrib (posOf1 hitC1.chunk_id (envC1.chromaResult.map ChromaDoc.id)) +
      rrfContrib (posOf1 hitC1.chunk_id (envC1.bm25Result.map BmRow.chunk_id))) :=
  ⟨by rw [C1_retrieve_envC1]; exact List.mem_singleton.mpr rfl,
   (C1_rrf_score_sum envC1 (by decide) (by decide) (by decide) (by decide)
     hitC1
     (by rw [C1_retrieve_envC1]; exact List.mem_singleton.mpr rfl)).1⟩

-- ======================================================================
-- Payload resolution: C10
-- ======================================================================

theorem patchE_bm25_preserves (l : List (String × Meta)) (e : String × Hit) :
    (patchE Engine.bm25 l e).2.chunk_id = e.2.chunk_id ∧
    (patchE Engine.bm25 l e).2.source = e.2.source ∧
    (patchE Engine.bm25 l e).2.page = e.2.page ∧
    (patchE Engine.bm25 l e).2.text = e.2.text ∧
    (patchE Engine.bm25 l e).2.chroma_rank = e.2.chroma_rank := by
  unfold patchE
  cases l.lookup e.1 <;> simp [engineBump_bm25_eq]

theorem cML_mem_general {env : RetEnv} {before : Option Int} {p : String × Meta}
    (hp : p ∈ chroma_meta_list env before) :
    ∃ j, ∃ hj : j < env.chromaResult.length,
      p.1 = (env.chromaResult.get ⟨j, hj⟩).id ∧
      p.2.source = (env.chromaResult.get ⟨j, hj⟩).source ∧
      p.2.page = (env.chromaResult.get ⟨j, hj⟩).page ∧
      p.2.text = (env.chromaResult.get ⟨j, hj⟩).content ∧
      p.2.rank = j + 1 := by
  rw [chroma_meta_list_eq] at hp
  obtain ⟨x, hx, hs⟩ := List.mem_filterMap.mp hp
  obtain ⟨j, hj, rfl⟩ := mem_enumFrom_iff.mp hx
  have hinv := chromaMetaOf_some hs
  exact ⟨j, hj, hinv.2.2.1, hinv.2.2.2.1, hinv.2.2.2.2.1, hinv.2.2.2.2.2.1,
    by rw [hinv.2.2.2.2.2.2]; omega⟩

theorem chromaTextById_none {env : RetEnv} {k : String}
    (h : k ∉ env.chromaResult.map ChromaDoc.id) : chromaTextById env k = none := by
  unfold chromaTextById
  refine lookup_none_of_not_keys ?_
  intro hmem
  refine h ?_
  rw [List.map_map] at hmem
  obtain ⟨d, hd, rfl⟩ := List.mem_map.mp hmem
  exact List.mem_map_of_mem ChromaDoc.id (List.mem_reverse.mp hd)

theorem fillOne_text_empty {env : RetEnv} {ids : List String}
    {pm : String × Meta} (ht : pm.2.text = "")
    (hf : env.ftsText pm.1 = none) : (fillOne env ids pm).2.text = "" := by
  unfold fillOne
  rw [if_pos ht]
  simp [hf]

/-- C10: a chunk found by the semantic engine keeps the source, page and full
text of the semantic payload at its recorded semantic rank (later keyword
contributions leave those fields untouched); a keyword-only hit always
carries a keyword rank; and a keyword-only chunk whose batch full-text
lookup returns no row is still returned, with empty text. -/
theorem C10_payload_resolution (env : RetEnv) (before : Option Int)
    (hcnd : (env.chromaResult.map ChromaDoc.id).Nodup)
    (hbnd : (env.bm25Result.map BmRow.chunk_id).Nodup) :
    (∀ h ∈ retrieve_hybrid env before,
      (∀ rc, h.chroma_rank = some rc →
        ∃ hj : rc - 1 < env.chromaResult.length,
          (env.chromaResult.get ⟨rc - 1, hj⟩).id = h.chunk_id ∧
          h.source = (env.chromaResult.get ⟨rc - 1, hj⟩).source ∧
          h.page = (env.chromaResult.get ⟨rc - 1, hj⟩).page ∧
          h.text = (env.chromaResult.get ⟨rc - 1, hj⟩).content) ∧
      (h.chroma_rank = none → h.bm25_rank.isSome = true)) ∧
    (∀ row ∈ env.bm25Result, row.chunk_id ≠ "" →
      passes_before_filter env.mtime row.source before = true →
      row.chunk_id ∉ env.chromaResult.map ChromaDoc.id →
      env.ftsText row.chunk_id = none →
      ∃ h ∈ retrieve_hybrid env before,
        h.chunk_id = row.chunk_id ∧ h.text = "") := by
  have hcnd' := cML_keys_nodup env before hcnd
  have hbnd' := bML_keys_nodup env before hbnd
  constructor
  · intro h hmem
    rcases mem_retrieve_cases env before hcnd' hbnd' hmem with
      ⟨p, hp, rfl⟩ | ⟨p, hp, hnk, rfl⟩
    · obtain ⟨j, hj, hid, hsrc, hpg, htx, hrank⟩ := cML_mem_general hp
      have hpres := patchE_bm25_preserves (bm25MetaListFilled env before)
        (newEntry Engine.chroma p)
      constructor
      · intro rc hrc
        rw [hpres.2.2.2.2] at hrc
        rw [newEntry_chroma_snd] at hrc
        simp only [Option.some.injEq] at hrc
        have hrc1 : rc = j + 1 := by rw [← hrc, hrank]
        have hj' : rc - 1 < env.chromaResult.length := by omega
        refine ⟨hj', ?_, ?_, ?_, ?_⟩
        · have : rc - 1 = j := by omega
          rw [hpres.1, newEntry_chroma_snd]
          simp only [this, hid]
        · rw [hpres.2.1, newEntry_chroma_snd]
          have : rc - 1 = j := by omega
          simp only [this, hsrc]
        · rw [hpres.2.2.1, newEntry_chroma_snd]
          have : rc - 1 = j := by omega
          simp only [this, hpg]
        · rw [hpres.2.2.2.1, newEntry_chroma_snd]
          have : rc - 1 = j := by omega
          simp only [this, htx]
      · intro hnone
        rw [hpres.2.2.2.2, newEntry_chroma_snd] at hnone
        exact absurd hnone (by simp)
    · constructor
      · intro rc hrc
        rw [newEntry_bm25_snd] at hrc
        exact absurd hrc (by simp)
      · intro _
        rw [newEntry_bm25_snd]
        rfl
  · intro row hrow hid hpass hnotin hf
    obtain ⟨jf, hget⟩ := List.mem_iff_get.mp hrow
    have hx : ((1 : Nat) + jf.1, row) ∈ List.enumFrom 1 env.bm25Result :=
      mem_enumFrom_iff.mpr ⟨jf.1, jf.2, by rw [← hget]⟩
    have hct : chromaTextById env row.chunk_id = none :=
      chromaTextById_none hnotin
    have hmetaOf : bm25MetaOf env before (1 + jf.1, row) =
        some (row.chunk_id,
          { source := row.source, page := row.page,
            text := (chromaTextById env row.chunk_id).getD "",
            rank := 1 + jf.1 }) := by
      simp [bm25MetaOf, hid, hpass]
    have hq : (row.chunk_id,
        ({ source := row.source, page := row.page,
           text := (chromaTextById env row.chunk_id).getD "",
           rank := 1 + jf.1 } : Meta)) ∈ (bm25_pass1 env before).1 := by
      rw [bm25_pass1_eq]
      exact List.mem_filterMap.mpr ⟨(1 + jf.1, row), hx, hmetaOf⟩
    set q : String × Meta := (row.chunk_id,
        ({ source := row.source, page := row.page,
           text := (chromaTextById env row.chunk_id).getD "",
           rank := 1 + jf.1 } : Meta)) with hqdef
    have hpmem : fillOne env (bm25_pass1 env before).2 q ∈
        bm25MetaListFilled env before := by
      rw [bm25MetaListFilled_eq]
      exact List.mem_map_of_mem _ hq
    have hqtext : q.2.text = "" := by
      rw [hqdef]
      simp [hct]
    have hptext : (fillOne env (bm25_pass1 env before).2 q).2.text = "" :=
      fillOne_text_empty hqtext hf
    have hpkey : (fillOne env (bm25_pass1 env before).2 q).1 = row.chunk_id := by
      rw [fillOne_fst]
    have hnk : mapHasKey (chroma_meta_list env before)
        (fillOne env (bm25_pass1 env before).2 q).1 = false := by
      rw [hpkey]
      cases hmk : mapHasKey (chroma_meta_list env before) row.chunk_id
      · rfl
      · exfalso
        have hmem2 := mapHasKey_mem_iff.mp hmk
        have hsub := chroma_keys_sublist env before env.chromaResult 1
        rw [← chroma_meta_list_eq] at hsub
        exact hnotin (hsub.mem hmem2)
    refine ⟨(newEntry Engine.bm25 (fillOne env (bm25_pass1 env before).2 q)).2,
      ?_, ?_, ?_⟩
    · rw [retrieve_hybrid_eq, fused2_explicit env before hcnd' hbnd']
      refine mem_sortRevStable.mpr ?_
      rw [List.map_append]
      refine List.mem_append.mpr (Or.inr ?_)
      rw [List.map_map]
      refine List.mem_map_of_mem _ ?_
      rw [List.mem_filter]
      exact ⟨hpmem, by rw [hnk]; rfl⟩
    · rw [newEntry_bm25_snd, hpkey]
    · rw [newEntry_bm25_snd]
      exact hptext

/-- Witness for C10: envC10 satisfies both nodup hypotheses, and its keyword
row with absent full text yields a returned hit with empty text. -/
theorem C10_witness :
    (envC10.chromaResult.map ChromaDoc.id).Nodup ∧
    (envC10.bm25Result.map BmRow.chunk_id).Nodup ∧
    ∃ h ∈ retrieve_hybrid envC10 none, h.chunk_id = "b:0:0" ∧ h.text = "" := by
  refine ⟨by decide, by decide, ?_⟩
  exact (C10_payload_resolution envC10 none (by decide) (by decide)).2
    rowC10 (List.mem_singleton.mpr rfl) (by decide) rfl (by simp [envC10]) rfl

theorem pairwise_fst_lt_enumFrom : ∀ (n : Nat) (l : List α),
    (List.enumFrom n l).Pairwise (fun p q => p.1 < q.1) := by
  intro n l
  induction l generalizing n with
  | nil => simp
  | cons x xs ih =>
    rw [List.enumFrom_cons, List.pairwise_cons]
    refine ⟨?_, ih (n + 1)⟩
    intro q hq
    obtain ⟨j, hj, rfl⟩ := mem_enumFrom_iff.mp hq
    show n < n + 1 + j
    omega

theorem fillOne_rank (env : RetEnv) (ids : List String) (pm : String × Meta) :
    (fillOne env ids pm).2.rank = pm.2.rank := by
  unfold fillOne
  split <;> rfl

theorem cML_pairwise_rank (env : RetEnv) (before : Option Int) :
    (chroma_meta_list env before).Pairwise (fun p q => p.2.rank < q.2.rank) := by
  rw [chroma_meta_list_eq, List.pairwise_filterMap]
  refine (pairwise_fst_lt_enumFrom 1 env.chromaResult).imp ?_
  intro a b hab e he f hf
  rw [(chromaMetaOf_some (Option.mem_def.mp he)).2.2.2.2.2.2,
      (chromaMetaOf_some (Option.mem_def.mp hf)).2.2.2.2.2.2]
  exact hab

theorem pass1_pairwise_rank (env : RetEnv) (before : Option Int) :
    (bm25_pass1 env before).1.Pairwise (fun p q => p.2.rank < q.2.rank) := by
  rw [bm25_pass1_eq]
  rw [List.pairwise_filterMap]
  refine (pairwise_fst_lt_enumFrom 1 env.bm25Result).imp ?_
  intro a b hab e he f hf
  rw [(bm25MetaOf_some (Option.mem_def.mp he)).2.2.2.2.2.2,
      (bm25MetaOf_some (Option.mem_def.mp hf)).2.2.2.2.2.2]
  exact hab

theorem bML_pairwise_rank (env : RetEnv) (before : Option Int) :
    (bm25MetaListFilled env before).Pairwise (fun p q => p.2.rank < q.2.rank) := by
  rw [bm25MetaListFilled_eq, List.pairwise_map]
  refine (pass1_pairwise_rank env before).imp ?_
  intro a b hab
  rw [fillOne_rank, fillOne_rank]
  exact hab

theorem fused2_pairwise_fd (env : RetEnv) (before : Option Int)
    (hcnd : ((chroma_meta_list env before).map Prod.fst).Nodup)
    (hbnd : ((bm25MetaListFilled env before).map Prod.fst).Nodup) :
    ((rrfFold Engine.bm25 (bm25MetaListFilled env before)
      (rrfFold Engine.chroma (chroma_meta_list env before) [])).map
        Prod.snd).Pairwise firstDiscoveryLt := by
  rw [fused2_explicit env before hcnd hbnd, List.map_append,
      List.pairwise_append]
  refine ⟨?_, ?_, ?_⟩
  · rw [List.map_map, List.pairwise_map]
    refine (cML_pairwise_rank env before).imp ?_
    intro p q hpq
    have hp := (patchE_bm25_preserves (bm25MetaListFilled env before)
      (newEntry Engine.chroma p)).2.2.2.2
    have hq := (patchE_bm25_preserves (bm25MetaListFilled env before)
      (newEntry Engine.chroma q)).2.2.2.2
    simp only [newEntry_chroma_snd] at hp hq
    simp only [Function.comp, firstDiscoveryLt, hp, hq]
    exact hpq
  · rw [List.map_map, List.pairwise_map]
    refine ((bML_pairwise_rank env before).filter _).imp ?_
    intro p q hpq
    simp only [Function.comp, newEntry_bm25_snd, firstDiscoveryLt]
    intro ra rb hra hrb
    rw [← Option.some.inj hra, ← Option.some.inj hrb]
    exact hpq
  · intro a ha b hb
    rw [List.map_map] at ha hb
    obtain ⟨p, hpm, rfl⟩ := List.mem_map.mp ha
    obtain ⟨q, hqm, rfl⟩ := List.mem_map.mp hb
    have hp := (patchE_bm25_preserves (bm25MetaListFilled env before)
      (newEntry Engine.chroma p)).2.2.2.2
    simp only [newEntry_chroma_snd] at hp
    simp [Function.comp, newEntry_bm25_snd, firstDiscoveryLt, hp]

/-- C2: retrieve_hybrid returns its hits sorted in descending order of
rrf_score, and any pair of hits with equal rrf_score keeps first-discovery
order: semantic-engine hits in semantic positional order, each before every
keyword-only hit of equal score, and keyword-only hits in keyword positional
order. -/
theorem C2_sort_order (env : RetEnv) (before : Option Int)
    (hcnd : (env.chromaResult.map ChromaDoc.id).Nodup)
    (hbnd : (env.bm25Result.map BmRow.chunk_id).Nodup) :
    (retrieve_hybrid env before).Pairwise (fun a b =>
      b.rrf_score ≤ a.rrf_score ∧
      (a.rrf_score = b.rrf_score → firstDiscoveryLt a b)) := by
  have hcnd' := cML_keys_nodup env before hcnd
  have hbnd' := bML_keys_nodup env before hbnd
  rw [retrieve_hybrid_eq]
  have htot : ∀ a b : Hit, hitLe a b = false → hitLe b a = true := by
    intro a b h
    simp only [hitLe, decide_eq_false_iff_not] at h
    simpa [hitLe] using le_of_not_le h
  have htrans : ∀ a b c : Hit,
      hitLe a b = true → hitLe b c = true → hitLe a c = true := by
    intro a b c hab hbc
    simp only [hitLe, decide_eq_true_eq] at hab hbc ⊢
    exact le_trans hab hbc
  have hs := sorted_sortRevStable htot htrans
    ((rrfFold Engine.bm25 (bm25MetaListFilled env before)
      (rrfFold Engine.chroma (chroma_meta_list env before) [])).map Prod.snd)
  have hpre : ((rrfFold Engine.bm25 (bm25MetaListFilled env before)
      (rrfFold Engine.chroma (chroma_meta_list env before) [])).map
        Prod.snd).Pairwise
      (fun a b : Hit => a.rrf_score = b.rrf_score → firstDiscoveryLt a b) :=
    (fused2_pairwise_fd env before hcnd' hbnd').imp
      (fun {a b} h (heq : a.rrf_score = b.rrf_score) => h)
  have hR : ∀ a b : Hit, ¬(hitLe a b = true ∧ hitLe b a = true) →
      (a.rrf_score = b.rrf_score → firstDiscoveryLt a b) := by
    intro a b hnot heq
    exact absurd ⟨by simp [hitLe, heq], by simp [hitLe, heq]⟩ hnot
  have ht := pairwise_sortRevStable_of hR _ hpre
  exact (hs.and ht).imp (fun hab =>
    ⟨by simpa [hitLe] using hab.1, hab.2⟩)

/-- Witness for C2: envC10 satisfies both nodup hypotheses and its retrieval
output is pairwise sorted with first-discovery tie order. -/
theorem C2_witness :
    (envC10.chromaResult.map ChromaDoc.id).Nodup ∧
    (envC10.bm25Result.map BmRow.chunk_id).Nodup ∧
    (retrieve_hybrid envC10 none).Pairwise (fun a b =>
      b.rrf_score ≤ a.rrf_score ∧
      (a.rrf_score = b.rrf_score → firstDiscoveryLt a b)) :=
  ⟨by decide, by decide, C2_sort_order envC10 none (by decide) (by decide)⟩

theorem run_agentAux_turns_le (env : AgentEnv) (question : String) :
    ∀ (fuel : Nat) (st : AgentState),
      (run_agentAux env question fuel st).2 ≤ fuel := by
  intro fuel
  induction fuel with
  | zero => intro st; exact Nat.le_refl 0
  | succ n ih =>
    intro st
    simp only [run_agentAux]
    cases hp : env.parse (env.llm (flattenTranscript st.transcript)) with
    | finalAnswer txt => exact Nat.succ_le_succ (Nat.zero_le n)
    | action tn aj =>
      cases hj : env.jsonParse aj with
      | none =>
        have := ih (appendObs (agentStep1 env st) jsonErrObs)
        simp only [hj]
        simpa [agentStep1] using Nat.succ_le_succ this
      | some args =>
        cases ht : TOOLS_get tn with
        | none =>
          have := ih (appendObs (agentStep1 env st) (unknownToolObs tn))
          simp only [hj, ht]
          simpa [agentStep1] using Nat.succ_le_succ this
        | some tool =>
          cases he : env.exec tool args with
          | error e =>
            have := ih (appendObs (agentStep1 env st) (toolErrObs tn e))
            simp only [hj, ht, he]
            simpa [agentStep1] using Nat.succ_le_succ this
          | ok result =>
            have := ih (appendObs
              (captureState tool result (agentStep1 env st))
              ("Observation:" ++ truncObs (env.dumps result)))
            simp only [hj, ht, he]
            simpa [agentStep1] using Nat.succ_le_succ this
    | noMatch =>
      by_cases h0 : n = 0
      · subst h0
        by_cases htc : truthyStr st.lastContextBlock = true
        · simp [htc]
        · simp [htc]
      · rw [if_neg h0]
        have := ih (appendObs (agentStep1 env st) nudgeObs)
        simpa [agentStep1] using Nat.succ_le_succ this

/-- C5 (amended): run_agent issues at most max_steps model turns and always
terminates; a run that exhausts its budget returns the fixed ran-out
message, and only when the final reply itself matches neither protocol
shape does the loop fall back: synthesizing an answer from the remembered
hybrid context when one exists, and returning the could-not-decide message
otherwise. -/
theorem C5_budget_and_exhaustion (env : AgentEnv) (question : String)
    (S : Nat) (st : AgentState)
    (hnm : env.parse (env.llm (flattenTranscript st.transcript)) =
      ParsedReply.noMatch) :
    run_agent_turns env question S ≤ S ∧
    (∀ st0 : AgentState, run_agentAux env question 0 st0 = (ranOutMsg, 0)) ∧
    run_agentAux env question 1 st =
      ((if truthyStr st.lastContextBlock = true
        then fallbackFormat env question (agentStep1 env st)
        else couldNotDecideMsg), 1) := by
  refine ⟨run_agentAux_turns_le env question S (initAgentState question),
    fun st0 => rfl, ?_⟩
  show run_agentAux env question (0 + 1) st = _
  simp only [run_agentAux, hnm]
  by_cases htc : truthyStr st.lastContextBlock = true
  · simp [htc, agentStep1]
  · simp [htc, agentStep1]

/-- Witness for C5: a model that never matches the protocol exhausts the
budget with no context and yields the could-not-decide message. -/
theorem C5_witness :
    envC5w.parse (envC5w.llm
      (flattenTranscript (initAgentState "q").transcript)) =
      ParsedReply.noMatch ∧
    (run_agent_turns envC5w "q" 3 ≤ 3 ∧
     (∀ st0 : AgentState, run_agentAux envC5w "q" 0 st0 = (ranOutMsg, 0)) ∧
     run_agentAux envC5w "q" 1 (initAgentState "q") =
       ((if truthyStr (initAgentState "q").lastContextBlock = true
         then fallbackFormat envC5w "q" (agentStep1 envC5w (initAgentState "q"))
         else couldNotDecideMsg), 1)) :=
  ⟨rfl, C5_budget_and_exhaustion envC5w "q" 3 (initAgentState "q") rfl⟩

/-- Counterexample to C5 as stated: with one step and a model that calls
hybrid_retrieve successfully, the final state remembers a context block,
yet the run returns the ran-out message: no answer is synthesized from the
context and the could-not-decide message is not returned either. -/
theorem C5_counterexample :
    run_agentAux envC5 "q" 1 (initAgentState "q") =
      ((run_agentAux envC5 "q" 0 stC5).1,
       (run_agentAux envC5 "q" 0 stC5).2 + 1) ∧
    truthyStr stC5.lastContextBlock = true ∧
    run_agent envC5 "q" 1 = ranOutMsg ∧
    run_agent envC5 "q" 1 ≠ couldNotDecideMsg ∧
    run_agent envC5 "q" 1 ≠ fallbackFormat envC5 "q" stC5 := by
  refine ⟨rfl, rfl, rfl, ?_, ?_⟩ <;> decide

/-- C7: each of the three action failure modes - unparsable Args JSON, an
unregistered tool name, and a tool execution error - appends the matching
synthetic observation to the transcript and continues the loop with the
remaining budget, consuming exactly one model turn; none of them terminates
the run. -/
theorem C7_failure_recovery (env : AgentEnv) (question : String)
    (fuel : Nat) (st : AgentState) (tn aj : String)
    (hact : env.parse (env.llm (flattenTranscript st.transcript)) =
      ParsedReply.action tn aj) :
    (env.jsonParse aj = none →
      run_agentAux env question (fuel + 1) st =
        ((run_agentAux env question fuel
            (appendObs (agentStep1 env st) jsonErrObs)).1,
         (run_agentAux env question fuel
            (appendObs (agentStep1 env st) jsonErrObs)).2 + 1)) ∧
    (∀ args, env.jsonParse aj = some args → TOOLS_get tn = none →
      run_agentAux env question (fuel + 1) st =
        ((run_agentAux env question fuel
            (appendObs (agentStep1 env st) (unknownToolObs tn))).1,
         (run_agentAux env question fuel
            (appendObs (agentStep1 env st) (unknownToolObs tn))).2 + 1)) ∧
    (∀ args tool e, env.jsonParse aj = some args → TOOLS_get tn = some tool →
      env.exec tool args = Except.error e →
      run_agentAux env question (fuel + 1) st =
        ((run_agentAux env question fuel
            (appendObs (agentStep1 env st) (toolErrObs tn e))).1,
         (run_agentAux env question fuel
            (appendObs (agentStep1 env st) (toolErrObs tn e))).2 + 1)) := by
  refine ⟨?_, ?_, ?_⟩
  · intro hj
    simp only [run_agentAux, hact, hj]
    rfl
  · intro args hj ht
    simp only [run_agentAux, hact, hj, ht]
    rfl
  · intro args tool e hj ht he
    simp only [run_agentAux, hact, hj, ht, he]
    rfl

/-- Witness for C7: an environment whose model emits an action with
unparsable Args recovers by appending the JSON-error observation. -/
theorem C7_witness :
    envC7.parse (envC7.llm
      (flattenTranscript (initAgentState "q").transcript)) =
      ParsedReply.action "badtool" "j" ∧
    ((envC7.jsonParse "j" = none →
      run_agentAux envC7 "q" (0 + 1) (initAgentState "q") =
        ((run_agentAux envC7 "q" 0
            (appendObs (agentStep1 envC7 (initAgentState "q")) jsonErrObs)).1,
         (run_agentAux envC7 "q" 0
            (appendObs (agentStep1 envC7 (initAgentState "q"))
              jsonErrObs)).2 + 1)) ∧
     (∀ args, envC7.jsonParse "j" = some args → TOOLS_get "badtool" = none →
      run_agentAux envC7 "q" (0 + 1) (initAgentState "q") =
        ((run_agentAux envC7 "q" 0
            (appendObs (agentStep1 envC7 (initAgentState "q"))
              (unknownToolObs "badtool"))).1,
         (run_agentAux envC7 "q" 0
            (appendObs (agentStep1 envC7 (initAgentState "q"))
              (unknownToolObs "badtool"))).2 + 1)) ∧
     (∀ args tool e, envC7.jsonParse "j" = some args →
      TOOLS_get "badtool" = some tool →
      envC7.exec tool args = Except.error e →
      run_agentAux envC7 "q" (0 + 1) (initAgentState "q") =
        ((run_agentAux envC7 "q" 0
            (appendObs (agentStep1 envC7 (initAgentState "q"))
              (toolErrObs "badtool" e))).1,
         (run_agentAux envC7 "q" 0
            (appendObs (agentStep1 envC7 (initAgentState "q"))
              (toolErrObs "badtool" e))).2 + 1))) :=
  ⟨rfl, C7_failure_recovery envC7 "q" 0 (initAgentState "q") "badtool" "j" rfl⟩

/-- C6 (amended): in the Q and A branch, when the first fused retrieval is
empty, exactly one retry is made with the quoted-token query, chroma depth
lowered to max(ck-2, 2) and keyword depth raised to max(bk, 60); when the
retry is also empty the router prints the fixed no-chunks message and
returns answer mode with no citations, no files and no generative call. -/
theorem C6_empty_retry (env : RouterEnv) (question : String) (k_ctx : Nat)
    (before_dt : Option Int)
    (hfl : is_file_lookup question = false)
    (h1 : env.retrieve question before_dt
      (qaCkBk question).1 (qaCkBk question).2 = [])
    (h2 : env.retrieve
      (add_quotes_if_helpful question (detect_brand_tokens question))
      before_dt (max ((qaCkBk question).1 - 2) 2)
      (max (qaCkBk question).2 60) = []) :
    route_and_run env question k_ctx before_dt =
      { mode := "answer", answerText := none,
        printedMsg :=
          some "\nI couldn\x27t retrieve any relevant chunks to answer that.\n",
        citations := [], files := [], llmCalls := 0,
        retrieveLog :=
          [(question, (qaCkBk question).1, (qaCkBk question).2),
           (add_quotes_if_helpful question (detect_brand_tokens question),
            max ((qaCkBk question).1 - 2) 2,
            max (qaCkBk question).2 60)] } := by
  cases hb : (detect_brand_tokens question).isEmpty <;>
    simp [qaCkBk, hb] at h1 h2 ⊢ <;>
    simp [route_and_run, hfl, hb, h1, h2]

/-- Counterexample to C6 as stated: with both engines empty on every query,
the double-empty Q and A branch prints the no-chunks message, which is not
the literal "insufficient information"; the retry and the zero generative
calls do hold. -/
theorem C6_counterexample :
    (route_and_run envC6 "who captured rome" 6 none).printedMsg =
      some "\nI couldn\x27t retrieve any relevant chunks to answer that.\n" ∧
    (route_and_run envC6 "who captured rome" 6 none).printedMsg ≠
      some "insufficient information" ∧
    (route_and_run envC6 "who captured rome" 6 none).answerText = none ∧
    (route_and_run envC6 "who captured rome" 6 none).llmCalls = 0 ∧
    (route_and_run envC6 "who captured rome" 6 none).citations = [] ∧
    (route_and_run envC6 "who captured rome" 6 none).retrieveLog =
      [("who captured rome", 6, 50),
       ("\"who\" \"captured\" \"rome\"", 4, 60)] := by
  refine ⟨?_, ?_, ?_, ?_, ?_, ?_⟩ <;> decide

/-- Witness for C6: the all-empty router environment on a non-file-lookup
question satisfies every hypothesis and produces the no-chunks outcome. -/
theorem C6_witness :
    is_file_lookup "who captured rome" = false ∧
    route_and_run envC6 "who captured rome" 6 none =
      { mode := "answer", answerText := none,
        printedMsg :=
          some "\nI couldn\x27t retrieve any relevant chunks to answer that.\n",
        citations := [], files := [], llmCalls := 0,
        retrieveLog :=
          [("who captured rome", (qaCkBk "who captured rome").1,
            (qaCkBk "who captured rome").2),
           (add_quotes_if_helpful "who captured rome"
              (detect_brand_tokens "who captured rome"),
            max ((qaCkBk "who captured rome").1 - 2) 2,
            max (qaCkBk "who captured rome").2 60)] } :=
  ⟨by decide, C6_empty_retry envC6 "who captured rome" 6 none (by decide)
    rfl rfl⟩
